import Mathlib

/-!
The package strintvalidator: tag parser and constraint evaluator.

A shallow embedding of `validator.go`.

* Go strings are byte sequences (`GoString`), `len` is the byte length.
* Go `int` is taken to be 64 bits wide; values are mathematical integers and
  the only place where the width matters is `strconv.Atoi`, which rejects
  decimals outside `[minInt, maxInt]`.
* The package-level accumulator `errs` is threaded explicitly: `ParseInt` and
  `ParseString` take the accumulator before the call and return it after.
* A run-time panic (index or slice out of range) is the `none` of `Option`.
-/

namespace Validator

/-- A Go string: an immutable sequence of bytes. -/
abbrev GoString := List UInt8

/-- The bytes of an ASCII string literal of the source. -/
def lit (s : String) : GoString := s.toList.map Char.toUInt8

/-! ## The parts of the Go standard library used by the package -/

namespace strings

/-- Go `strings.HasPrefix(s, p)`: `s` begins with `p`. -/
def HasPrefix (s p : GoString) : Bool := p.isPrefixOf s

/-- Go `strings.Contains(s, substr)`: `substr` occurs within `s`. -/
def Contains (s substr : GoString) : Bool := decide (substr <:+: s)

/-- Go `strings.Split(s, sep)` for a one-byte separator: the pieces of `s`
between the occurrences of `sep`; the result is never empty. -/
def Split : GoString → UInt8 → List GoString
  | [], _ => [[]]
  | c :: cs, sep =>
    if c = sep then [] :: Split cs sep
    else
      match Split cs sep with
      | [] => [[c]]
      | piece :: pieces => (c :: piece) :: pieces

/-- Go `strings.Join(elems, sep)`: the elements with `sep` between them. -/
def Join : List GoString → GoString → GoString
  | [], _ => []
  | [t], _ => t
  | t :: u :: rest, sep => t ++ sep ++ Join (u :: rest) sep

end strings

namespace strconv

/-- The `Err` of a `*strconv.NumError`. -/
inductive NumError
  | ErrSyntax
  | ErrRange
  deriving DecidableEq, Repr

/-- Width of Go `int` (`strconv.IntSize`). -/
def IntSize : Nat := 64

/-- Largest Go `int`. -/
def maxInt : Int := 2 ^ (IntSize - 1) - 1

/-- Smallest Go `int`. -/
def minInt : Int := -(2 ^ (IntSize - 1))

/-- Largest `uint64`. -/
def maxUint64 : Nat := 2 ^ 64 - 1

/-- Whether a byte is one of `'0'..'9'`. -/
def isDigit (c : UInt8) : Bool := decide (48 ≤ c.toNat) && decide (c.toNat ≤ 57)

/-- The loop of `strconv.ParseUint(s, 10, 0)` over the bytes of `s`, `n` being
the value accumulated so far. A byte that is not a decimal digit is a syntax
error with value 0; an overflow is a range error with value `maxVal`, raised
at the digit that overflows, before the bytes after it are looked at. -/
def parseUintLoop : GoString → Nat → Nat × Option NumError
  | [], n => (n, none)
  | c :: cs, n =>
    if isDigit c then
      -- cutoff = maxUint64/10 + 1: n*10 would overflow
      if n ≥ maxUint64 / 10 + 1 then (2 ^ IntSize - 1, some .ErrRange)
      else
        -- n1 < n (wrap-around of uint64) or n1 > maxVal
        if n * 10 + (c.toNat - 48) > 2 ^ IntSize - 1 then (2 ^ IntSize - 1, some .ErrRange)
        else parseUintLoop cs (n * 10 + (c.toNat - 48))
    else (0, some .ErrSyntax)

/-- Go `strconv.ParseUint(s, 10, 0)`. -/
def ParseUint (s : GoString) : Nat × Option NumError :=
  if s = [] then (0, some .ErrSyntax) else parseUintLoop s 0

/-- Go `strconv.ParseInt(s, 10, 0)`: optional sign, then `ParseUint`, then the
check against the range of `int`; a range error carries the nearest bound. -/
def ParseInt (s : GoString) : Int × Option NumError :=
  match s with
  | [] => (0, some .ErrSyntax)
  | c :: cs =>
    let neg : Bool := c = 45
    let body : GoString := if c = 43 ∨ c = 45 then cs else c :: cs
    match ParseUint body with
    | (_, some .ErrSyntax) => (0, some .ErrSyntax)
    | (un, _) =>
      if !neg ∧ un ≥ 2 ^ (IntSize - 1) then (2 ^ (IntSize - 1) - 1, some .ErrRange)
      else if neg ∧ un > 2 ^ (IntSize - 1) then (-(2 ^ (IntSize - 1)), some .ErrRange)
      else (if neg then -(un : Int) else (un : Int), none)

/-- The digit loop of the fast path of `strconv.Atoi`: `none` at the first
byte that is not a decimal digit. -/
def atoiFastLoop : GoString → Nat → Option Nat
  | [], n => some n
  | c :: cs, n => if isDigit c then atoiFastLoop cs (n * 10 + (c.toNat - 48)) else none

/-- Go `strconv.Atoi(s)`: the value and the error (`none` is `nil`). Inputs of
1 to 18 bytes take the fast path, which cannot overflow; the others go through
`ParseInt`. -/
def Atoi (s : GoString) : Int × Option NumError :=
  match s with
  | [] => ParseInt []
  | c :: cs =>
    if (c :: cs).length < 19 then
      let body : GoString := if c = 45 ∨ c = 43 then cs else c :: cs
      if body.length < 1 then (0, some .ErrSyntax)
      else
        match atoiFastLoop body 0 with
        | none => (0, some .ErrSyntax)
        | some n => (if c = 45 then -(n : Int) else (n : Int), none)
    else ParseInt (c :: cs)

/-- The digits of `u` in base 10, most significant first, put in front of
`acc` (the loop of `strconv.formatBits`); `fuel` bounds the number of digits. -/
def formatBits : Nat → Nat → GoString → GoString
  | 0, _, acc => acc
  | fuel + 1, u, acc =>
    if u < 10 then UInt8.ofNat (48 + u) :: acc
    else formatBits fuel (u / 10) (UInt8.ofNat (48 + u % 10) :: acc)

/-- Go `strconv.Itoa(i)`: the decimal writing of `i`, with a leading `-` for a
negative number and no leading zero. -/
def Itoa (i : Int) : GoString :=
  if i < 0 then 45 :: formatBits (i.natAbs + 1) i.natAbs []
  else formatBits (i.natAbs + 1) i.natAbs []

/-- The number a sequence of decimal digits denotes, continuing from `n`. -/
def digitsVal (cs : GoString) (n : Nat) : Nat :=
  cs.foldl (fun a c => a * 10 + (c.toNat - 48)) n

end strconv

/-! ## Errors -/

/-- The error values the package produces: the three sentinels, and the
result of `fmt.Errorf(format)` kept with its format string. -/
inductive GoError
  | ErrNotStruct
  | ErrInvalidValidatorSyntax
  | ErrValidateForUnexportedFields
  | Errorf (format : GoString)
  deriving DecidableEq, Repr

/-- Go `type ValidationError struct { Err error }`. -/
structure ValidationError where
  Err : GoError
  deriving DecidableEq, Repr

/-- Go `type ValidationErrors []ValidationError`. -/
abbrev ValidationErrors := List ValidationError

/-! ## Constants -/

def lenPref : GoString := lit "len:"
def inPref : GoString := lit "in:"
def minPref : GoString := lit "min:"
def maxPref : GoString := lit "max:"
def rangePref : GoString := lit "range:"

def INF : Int := 1000000000

def intPattern : GoString := lit "int"
def stringPattern : GoString := lit "string"
def sliceIntPattern : GoString := lit "[]int"
def sliceStringPattern : GoString := lit "[]string"

/-- The four field kinds the parser accepts. -/
def supportedKind (k : GoString) : Prop :=
  k = intPattern ∨ k = stringPattern ∨ k = sliceIntPattern ∨ k = sliceStringPattern

/-- The two kinds on which `len:` is legal. -/
def stringKind (k : GoString) : Prop := k = stringPattern ∨ k = sliceStringPattern

/-- Go `type ValidateParams struct`. -/
structure ValidateParams where
  tp : GoString
  text : List GoString
  min : Int
  max : Int
  len : Int
  deriving DecidableEq, Repr

/-- The zero value `ValidateParams{}`. -/
def ValidateParams.zero : ValidateParams :=
  { tp := [], text := [], min := 0, max := 0, len := 0 }

/-! ## The tag parser -/

/-- The loop of `ParseValidateTags` that picks `opt`: the first of the five
prefixes, in the order `len:`, `in:`, `min:`, `max:`, `range:`, that `s`
begins with, and `""` when there is none. -/
def selectPref (s : GoString) : GoString :=
  ([lenPref, inPref, minPref, maxPref, rangePref].find? (fun p => strings.HasPrefix s p)).getD []

/-- The slice expression `s[i:]`; out of range is a panic. -/
def sliceFrom (s : GoString) (i : Nat) : Option GoString :=
  if i ≤ s.length then some (s.drop i) else none

/-- Go `ParseValidateTags(s, objPattern)`. The result is the returned pair
(`none` in the second component is a `nil` error); `none` is a panic. -/
def ParseValidateTags (s objPattern : GoString) : Option (ValidateParams × Option GoError) :=
  if objPattern ≠ intPattern ∧ objPattern ≠ stringPattern ∧ objPattern ≠ sliceIntPattern ∧
      objPattern ≠ sliceStringPattern then
    some (ValidateParams.zero, some .ErrInvalidValidatorSyntax)
  else
    let opt := selectPref s
    if opt.length = 0 ∨
        (objPattern ≠ stringPattern ∧ objPattern ≠ sliceStringPattern ∧ opt = lenPref) then
      some (ValidateParams.zero, some .ErrInvalidValidatorSyntax)
    else
      let res : ValidateParams := { tp := opt, text := [], min := -INF, max := INF, len := 0 }
      (sliceFrom s opt.length).bind fun rest =>
      let values := strings.Split rest 44
      values[0]?.bind fun v0 =>
      if v0.length = 0 ∨ (values.length ≤ 1 ∧ opt = rangePref) then
        some (ValidateParams.zero, some .ErrInvalidValidatorSyntax)
      else if opt = inPref then
        if (objPattern = intPattern ∨ objPattern = sliceIntPattern) ∧
            values.any (fun t => (strconv.Atoi t).2.isSome) then
          some (ValidateParams.zero, some .ErrInvalidValidatorSyntax)
        else some ({ res with text := values }, none)
      else
        match strconv.Atoi v0 with
        | (_, some _) => some (ValidateParams.zero, some .ErrInvalidValidatorSyntax)
        | (x, none) =>
          if opt = lenPref then some ({ res with len := x }, none)
          else if opt = minPref then some ({ res with min := x }, none)
          else if opt = maxPref then some ({ res with max := x }, none)
          else
            values[1]?.bind fun v1 =>
            match strconv.Atoi v1 with
            | (_, some _) => some (ValidateParams.zero, some .ErrInvalidValidatorSyntax)
            | (y, none) => some ({ res with min := x, max := y }, none)

/-! ## The evaluator -/

/-- The violation `ValidationError{fmt.Errorf("wrong field " + fieldName + msg)}`. -/
def violation (fieldName : GoString) (msg : String) : ValidationError :=
  ⟨.Errorf (lit "wrong field " ++ fieldName ++ lit msg)⟩

/-- Go `ParseInt(cnfg, num, fieldName)`: from the accumulator `errs` before the
call to the accumulator after it. -/
def ParseInt (cnfg : ValidateParams) (num : Int) (fieldName : GoString)
    (errs : ValidationErrors) : ValidationErrors :=
  let errs :=
    if cnfg.tp = inPref then
      let fnd := cnfg.text.any (fun t => decide ((strconv.Atoi t).1 = num))
      if !fnd then errs ++ [violation fieldName ": the number is not in the list"] else errs
    else errs
  let errs :=
    if cnfg.tp = minPref ∧ num < cnfg.min then
      errs ++ [violation fieldName ": the number is less than the lower bound"]
    else errs
  let errs :=
    if cnfg.tp = maxPref ∧ num > cnfg.max then
      errs ++ [violation fieldName ": the number is greater than the upper bound"]
    else errs
  if cnfg.tp = rangePref ∧ (num > cnfg.max ∨ num < cnfg.min) then
    errs ++ [violation fieldName ": the number is not in range"]
  else errs

/-- Go `len(s)` as an `int`. -/
def strLen (s : GoString) : Int := (s.length : Int)

/-- Go `ParseString(cnfg, s, fieldName)`: from the accumulator `errs` before
the call to the accumulator after it. -/
def ParseString (cnfg : ValidateParams) (s : GoString) (fieldName : GoString)
    (errs : ValidationErrors) : ValidationErrors :=
  let errs :=
    if cnfg.tp = inPref then
      let fnd := cnfg.text.any (fun t => strings.Contains t s)
      if !fnd then errs ++ [violation fieldName ": the string is not in the list"] else errs
    else errs
  let errs :=
    if cnfg.tp = lenPref ∧ strLen s ≠ cnfg.len then
      errs ++ [violation fieldName ": incorrect string len"]
    else errs
  let errs :=
    if cnfg.tp = minPref ∧ strLen s < cnfg.min then
      errs ++ [violation fieldName ": string len is less than the lower bound"]
    else errs
  let errs :=
    if cnfg.tp = maxPref ∧ strLen s > cnfg.max then
      errs ++ [violation fieldName ": string len is greater than the upper bound"]
    else errs
  if cnfg.tp = rangePref ∧ (strLen s > cnfg.max ∨ strLen s < cnfg.min) then
    errs ++ [violation fieldName ": string len is not in range"]
  else errs


/-! ## The rendering of the violations -/

/-- Go `e.Error()` for the errors of the package. `sprintf` stands for
`fmt.Sprintf` applied to a format with no operand, which is how `fmt.Errorf`
builds its message. -/
def GoError.Error (sprintf : GoString → GoString) : GoError → GoString
  | .ErrNotStruct => lit "wrong argument given, should be a struct"
  | .ErrInvalidValidatorSyntax => lit "invalid validator syntax"
  | .ErrValidateForUnexportedFields => lit "validation for unexported field is not allowed"
  | .Errorf format => sprintf format

/-- Go `func (v ValidationErrors) Error() string`: every message followed by a
newline, then the last byte cut off when there is one. -/
def ValidationErrors.Error (sprintf : GoString → GoString) (v : ValidationErrors) : GoString :=
  let message := v.foldl (fun message e => message ++ (e.Err.Error sprintf ++ lit "\n")) []
  if message.length > 0 then message.take (message.length - 1) else message

/-! ## What reflection shows of the argument of `Validate` -/

namespace reflect

/-- Go `reflect.Kind`. -/
inductive Kind
  | Invalid | Bool | Int | Int8 | Int16 | Int32 | Int64
  | Uint | Uint8 | Uint16 | Uint32 | Uint64 | Uintptr
  | Float32 | Float64 | Complex64 | Complex128
  | Array | Chan | Func | Interface | Map | Pointer | Slice | String | Struct | UnsafePointer
  deriving DecidableEq, Repr

end reflect

/-- The value of a struct field together with its type, as far as `Validate`
tells types apart: the four types it evaluates, and any other type, of which
only the name `Type.String()` matters. -/
inductive FieldValue
  | int (n : Int)
  | string (s : GoString)
  | sliceInt (xs : List Int)
  | sliceString (xs : List GoString)
  | other (typ : GoString)
  deriving DecidableEq, Repr

/-- Go `structuredField.Type.String()`. -/
def FieldValue.typeString : FieldValue → GoString
  | .int _ => intPattern
  | .string _ => stringPattern
  | .sliceInt _ => sliceIntPattern
  | .sliceString _ => sliceStringPattern
  | .other typ => typ

/-- Go `val.Field(i).Int()`, which panics on a value that is not an integer;
`Validate` calls it only on a field whose type is `int`. -/
def FieldValue.reflectInt : FieldValue → Option Int
  | .int n => some n
  | _ => none

/-- Go `val.Field(i).String()`: the string itself, and `<T Value>` for a value
of another type `T`. -/
def FieldValue.reflectString : FieldValue → GoString
  | .string s => s
  | v => lit "<" ++ v.typeString ++ lit " Value>"

/-- Go `valField.Interface().([]int)` with the second result dropped: the
slice, and `nil` for a value of another type. -/
def FieldValue.assertSliceInt : FieldValue → List Int
  | .sliceInt xs => xs
  | _ => []

/-- Go `valField.Interface().([]string)` with the second result dropped. -/
def FieldValue.assertSliceString : FieldValue → List GoString
  | .sliceString xs => xs
  | _ => []

/-- One field of the struct: its `reflect.StructField` and its value. `tag` is
the result of `Tag.Lookup("validate")`, `none` when the key is absent. -/
structure StructField where
  Name : GoString
  tag : Option GoString
  exported : Bool
  value : FieldValue
  deriving DecidableEq, Repr

/-- A non-nil Go value as `Validate` sees it through reflection: the kind of
its type and, for a struct, its fields in declaration order. -/
structure Reflected where
  kind : reflect.Kind
  fields : List StructField
  deriving DecidableEq, Repr

/-! ## The orchestrator -/

/-- One turn of the loop of `Validate` over the fields: from the accumulator
before the turn to the accumulator after it; `none` is a panic. -/
def validateField (f : StructField) (errs : ValidationErrors) : Option ValidationErrors :=
  match f.tag with
  | none => some errs
  | some s =>
    if !f.exported then some (errs ++ [⟨.ErrValidateForUnexportedFields⟩])
    else
      let objPattern := f.value.typeString
      (ParseValidateTags s objPattern).bind fun res =>
        match res with
        | (_, some err) => some (errs ++ [⟨err⟩])
        | (cnfg, none) =>
          if objPattern = intPattern then
            f.value.reflectInt.map fun num => ParseInt cnfg num f.Name errs
          else if objPattern = stringPattern then
            some (ParseString cnfg f.value.reflectString f.Name errs)
          else
            let innerIntegers : List Int :=
              if objPattern = sliceIntPattern then f.value.assertSliceInt else []
            let innerStrings : List GoString :=
              if objPattern = sliceIntPattern then [] else f.value.assertSliceString
            let errs := innerIntegers.foldl (fun errs item => ParseInt cnfg item f.Name errs) errs
            some (innerStrings.foldl (fun errs item => ParseString cnfg item f.Name errs) errs)

/-- The loop of `Validate` over the fields, in declaration order. -/
def validateFields : List StructField → ValidationErrors → Option ValidationErrors
  | [], errs => some errs
  | f :: fs, errs => (validateField f errs).bind (validateFields fs)

/-- Go `Validate(v)`, with the package-level accumulator threaded through.
The argument `v` is `none` for the nil interface value. The second argument is
the content of `errs` before the call; the result is the returned error (`none`
is `nil`) and the content of `errs` after the call; `none` is a panic. -/
def Validate (v : Option Reflected) (before : ValidationErrors) :
    Option (Option ValidationErrors × ValidationErrors) :=
  match v with
  | none => none
  | some r =>
    let origin := r.kind
    let errs : ValidationErrors := []
    let after : Option ValidationErrors :=
      if origin ≠ reflect.Kind.Struct then some (errs ++ [⟨.ErrNotStruct⟩])
      else validateFields r.fields errs
    after.map fun errs => (if errs.length = 0 then none else some errs, errs)


/-! ## Basic facts about the constants and the library functions -/

theorem lenPref_eq : lenPref = [108, 101, 110, 58] := by decide
theorem inPref_eq : inPref = [105, 110, 58] := by decide
theorem minPref_eq : minPref = [109, 105, 110, 58] := by decide
theorem maxPref_eq : maxPref = [109, 97, 120, 58] := by decide
theorem rangePref_eq : rangePref = [114, 97, 110, 103, 101, 58] := by decide
theorem intPattern_eq : intPattern = [105, 110, 116] := by decide
theorem stringPattern_eq : stringPattern = [115, 116, 114, 105, 110, 103] := by decide
theorem sliceIntPattern_eq : sliceIntPattern = [91, 93, 105, 110, 116] := by decide
theorem sliceStringPattern_eq :
    sliceStringPattern = [91, 93, 115, 116, 114, 105, 110, 103] := by decide

theorem selectPref_len (r : GoString) : selectPref (lenPref ++ r) = lenPref := by
  simp only [selectPref, strings.HasPrefix, lenPref_eq, inPref_eq, minPref_eq, maxPref_eq,
    rangePref_eq]
  simp [List.find?, List.isPrefixOf]

theorem selectPref_in (r : GoString) : selectPref (inPref ++ r) = inPref := by
  simp only [selectPref, strings.HasPrefix, lenPref_eq, inPref_eq, minPref_eq, maxPref_eq,
    rangePref_eq]
  simp [List.find?, List.isPrefixOf]

theorem selectPref_min (r : GoString) : selectPref (minPref ++ r) = minPref := by
  simp only [selectPref, strings.HasPrefix, lenPref_eq, inPref_eq, minPref_eq, maxPref_eq,
    rangePref_eq]
  simp [List.find?, List.isPrefixOf]

theorem selectPref_max (r : GoString) : selectPref (maxPref ++ r) = maxPref := by
  simp only [selectPref, strings.HasPrefix, lenPref_eq, inPref_eq, minPref_eq, maxPref_eq,
    rangePref_eq]
  simp [List.find?, List.isPrefixOf]

theorem selectPref_range (r : GoString) : selectPref (rangePref ++ r) = rangePref := by
  simp only [selectPref, strings.HasPrefix, lenPref_eq, inPref_eq, minPref_eq, maxPref_eq,
    rangePref_eq]
  simp [List.find?, List.isPrefixOf]

theorem Split_ne_nil (s : GoString) (sep : UInt8) : strings.Split s sep ≠ [] := by
  induction s with
  | nil => simp [strings.Split]
  | cons c cs ih =>
    unfold strings.Split
    split
    · simp
    · split <;> simp

theorem Split_of_not_mem (t : GoString) (sep : UInt8) (h : sep ∉ t) :
    strings.Split t sep = [t] := by
  induction t with
  | nil => simp [strings.Split]
  | cons c cs ih =>
    have hc : c ≠ sep := fun e => h (by simp [e])
    have hcs : sep ∉ cs := fun e => h (by simp [e])
    simp [strings.Split, hc, ih hcs]

theorem Split_append_sep (t r : GoString) (sep : UInt8) (h : sep ∉ t) :
    strings.Split (t ++ sep :: r) sep = t :: strings.Split r sep := by
  induction t with
  | nil => simp [strings.Split]
  | cons c cs ih =>
    have hc : c ≠ sep := fun e => h (by simp [e])
    have hcs : sep ∉ cs := fun e => h (by simp [e])
    simp [strings.Split, hc, ih hcs]

namespace strconv

theorem digitsVal_append (xs ys : GoString) (n : Nat) :
    digitsVal (xs ++ ys) n = digitsVal ys (digitsVal xs n) := by
  simp [digitsVal]

theorem le_digitsVal (cs : GoString) (n : Nat) : n ≤ digitsVal cs n := by
  induction cs generalizing n with
  | nil => simp [digitsVal]
  | cons c cs ih =>
    have h := ih (n * 10 + (c.toNat - 48))
    simp only [digitsVal, List.foldl_cons] at h ⊢
    omega

theorem atoiFastLoop_digits (cs : GoString) (n : Nat) (h : ∀ c ∈ cs, isDigit c = true) :
    atoiFastLoop cs n = some (digitsVal cs n) := by
  induction cs generalizing n with
  | nil => simp [atoiFastLoop, digitsVal]
  | cons c cs ih =>
    have hc : isDigit c = true := h c (by simp)
    have hcs : ∀ d ∈ cs, isDigit d = true := fun d hd => h d (by simp [hd])
    simp [atoiFastLoop, hc, ih _ hcs, digitsVal]

theorem parseUintLoop_digits (cs : GoString) (n : Nat) (h : ∀ c ∈ cs, isDigit c = true)
    (hv : digitsVal cs n ≤ 2 ^ 64 - 1) :
    parseUintLoop cs n = (digitsVal cs n, none) := by
  induction cs generalizing n with
  | nil => simp [parseUintLoop, digitsVal]
  | cons c cs ih =>
    have hc : isDigit c = true := h c (by simp)
    have hcs : ∀ d ∈ cs, isDigit d = true := fun d hd => h d (by simp [hd])
    have hv2 : digitsVal cs (n * 10 + (c.toNat - 48)) ≤ 2 ^ 64 - 1 := by
      simpa [digitsVal] using hv
    have hle := le_digitsVal cs (n * 10 + (c.toNat - 48))
    have h1 : ¬ (n ≥ maxUint64 / 10 + 1) := by
      simp only [maxUint64]; norm_num at hv2 hle ⊢; omega
    have h2 : ¬ (n * 10 + (c.toNat - 48) > 2 ^ IntSize - 1) := by
      simp only [IntSize]; norm_num at hv2 hle ⊢; omega
    rw [parseUintLoop]
    simp only [hc, if_true, h1, h2, if_false]
    rw [ih _ hcs hv2]
    simp [digitsVal]

theorem isDigit_ofNat (d : Nat) (h : d < 10) : isDigit (UInt8.ofNat (48 + d)) = true := by
  have e : (UInt8.ofNat (48 + d)).toNat = 48 + d :=
    UInt8.toNat_ofNat_of_lt (by simp [UInt8.size]; omega)
  simp [isDigit, e]; omega

theorem toNat_ofNat_digit (d : Nat) (h : d < 10) : (UInt8.ofNat (48 + d)).toNat - 48 = d := by
  have e : (UInt8.ofNat (48 + d)).toNat = 48 + d :=
    UInt8.toNat_ofNat_of_lt (by simp [UInt8.size]; omega)
  omega

theorem formatBits_acc (fuel u : Nat) (acc : GoString) :
    formatBits fuel u acc = formatBits fuel u [] ++ acc := by
  induction fuel generalizing u acc with
  | zero => simp [formatBits]
  | succ k ih =>
    simp only [formatBits]
    split
    · simp
    · rw [ih (u / 10) (UInt8.ofNat (48 + u % 10) :: acc), ih (u / 10) [UInt8.ofNat (48 + u % 10)]]
      simp

theorem formatBits_ne_nil (fuel u : Nat) : formatBits (fuel + 1) u [] ≠ [] := by
  simp only [formatBits]
  split
  · simp
  · rw [formatBits_acc]; simp

theorem formatBits_isDigit (fuel u : Nat) :
    ∀ c ∈ formatBits fuel u [], isDigit c = true := by
  induction fuel generalizing u with
  | zero => simp [formatBits]
  | succ k ih =>
    intro c hc
    simp only [formatBits] at hc
    split at hc
    · simp only [List.mem_singleton] at hc
      subst hc
      exact isDigit_ofNat u (by omega)
    · rw [formatBits_acc] at hc
      simp only [List.mem_append, List.mem_singleton] at hc
      rcases hc with hc | hc
      · exact ih _ c hc
      · subst hc
        exact isDigit_ofNat _ (Nat.mod_lt _ (by omega))

theorem digitsVal_formatBits (fuel u : Nat) (h : u < fuel) :
    digitsVal (formatBits fuel u []) 0 = u := by
  induction fuel generalizing u with
  | zero => omega
  | succ k ih =>
    simp only [formatBits]
    split
    · rename_i hu
      simp [digitsVal, toNat_ofNat_digit u hu]
    · rename_i hu
      rw [formatBits_acc, digitsVal_append, ih (u / 10) (by omega)]
      simp only [digitsVal, List.foldl_cons, List.foldl_nil]
      rw [toNat_ofNat_digit _ (Nat.mod_lt _ (by omega))]
      omega

theorem isDigit_ne_sign (c : UInt8) (h : isDigit c = true) : c ≠ 45 ∧ c ≠ 43 ∧ c ≠ 44 := by
  refine ⟨?_, ?_, ?_⟩ <;> (rintro rfl; revert h; decide)

/-- A non-empty sequence of digits denoting at most `maxInt` is read by `Atoi`
as that number. -/
theorem Atoi_digits (ds : GoString) (hne : ds ≠ []) (hd : ∀ c ∈ ds, isDigit c = true)
    (hv : (digitsVal ds 0 : Int) ≤ maxInt) : Atoi ds = (((digitsVal ds 0 : Nat) : Int), none) := by
  have hv1 : digitsVal ds 0 ≤ 2 ^ 63 - 1 := by
    simp only [maxInt, IntSize] at hv; norm_num at hv ⊢; omega
  cases ds with
  | nil => exact absurd rfl hne
  | cons c cs =>
    obtain ⟨h45, h43, -⟩ := isDigit_ne_sign c (hd c (by simp))
    simp only [Atoi]
    split
    · simp only [h45, h43, or_self, if_false]
      rw [atoiFastLoop_digits _ _ hd]
      simp
    · simp only [ParseInt, h45, h43, or_self, if_false, ParseUint, hne]
      rw [parseUintLoop_digits _ _ hd (by norm_num at hv1 ⊢; omega)]
      have hlt : ¬ (9223372036854775808 ≤ digitsVal (c :: cs) 0) := by
        norm_num at hv1 ⊢; omega
      simp only [IntSize]
      norm_num
      exact fun h => absurd h hlt

/-- A `-` followed by a non-empty sequence of digits denoting at most
`-minInt` is read by `Atoi` as the negated number. -/
theorem Atoi_neg_digits (ds : GoString) (hne : ds ≠ []) (hd : ∀ c ∈ ds, isDigit c = true)
    (hv : minInt ≤ -(digitsVal ds 0 : Int)) :
    Atoi (45 :: ds) = (-((digitsVal ds 0 : Nat) : Int), none) := by
  have hv1 : digitsVal ds 0 ≤ 2 ^ 63 := by
    simp only [minInt, IntSize] at hv; norm_num at hv ⊢; omega
  have hlen : ¬ ds.length < 1 := by
    cases ds with
    | nil => exact absurd rfl hne
    | cons c cs => simp
  simp only [Atoi]
  split
  · simp only [true_or, if_true, hlen, if_false]
    rw [atoiFastLoop_digits _ _ hd]
  · simp only [ParseInt, or_true, if_true, ParseUint, hne, if_false]
    rw [parseUintLoop_digits _ _ hd (by norm_num at hv1 ⊢; omega)]
    have hlt : ¬ (9223372036854775808 < digitsVal ds 0) := by
      norm_num at hv1 ⊢; omega
    simp only [IntSize]
    norm_num
    exact fun h => absurd h hlt

theorem Itoa_nonneg (i : Int) (h : 0 ≤ i) : Itoa i = formatBits (i.natAbs + 1) i.natAbs [] := by
  simp [Itoa, not_lt.mpr h]

theorem Itoa_neg (i : Int) (h : i < 0) :
    Itoa i = 45 :: formatBits (i.natAbs + 1) i.natAbs [] := by
  simp [Itoa, h]

/-- Reading back the decimal writing of a Go `int` gives the `int`. -/
theorem Atoi_Itoa (i : Int) (hlo : minInt ≤ i) (hhi : i ≤ maxInt) : Atoi (Itoa i) = (i, none) := by
  have hval := digitsVal_formatBits (i.natAbs + 1) i.natAbs (by omega)
  have hdig := formatBits_isDigit (i.natAbs + 1) i.natAbs
  have hne := formatBits_ne_nil i.natAbs i.natAbs
  by_cases h : i < 0
  · rw [Itoa_neg i h, Atoi_neg_digits _ hne hdig (by rw [hval]; omega), hval]
    congr 1; omega
  · rw [Itoa_nonneg i (by omega), Atoi_digits _ hne hdig (by rw [hval]; omega), hval]
    congr 1; omega

theorem Itoa_ne_nil (i : Int) : Itoa i ≠ [] := by
  unfold Itoa
  split
  · simp
  · exact formatBits_ne_nil _ _

theorem Itoa_no_comma (i : Int) : (44 : UInt8) ∉ Itoa i := by
  have hdig := formatBits_isDigit (i.natAbs + 1) i.natAbs
  have hd : (44 : UInt8) ∉ formatBits (i.natAbs + 1) i.natAbs [] := fun hm =>
    (isDigit_ne_sign 44 (hdig 44 hm)).2.2 rfl
  unfold Itoa
  split
  · simp only [List.mem_cons, not_or]
    exact ⟨by decide, hd⟩
  · exact hd

end strconv

/-! ## The parser on well-formed tags -/

theorem sliceFrom_append (p r : GoString) : sliceFrom (p ++ r) p.length = some r := by
  simp [sliceFrom]

theorem PVT_min (k t : GoString) (more : List GoString) (r : GoString) (n : Int)
    (hk : supportedKind k) (hsplit : strings.Split r 44 = t :: more) (hne : t ≠ [])
    (ht : strconv.Atoi t = (n, none)) :
    ParseValidateTags (minPref ++ r) k =
      some ({ tp := minPref, text := [], min := n, max := INF, len := 0 }, none) := by
  simp only [ParseValidateTags, selectPref_min, sliceFrom_append, Option.some_bind, hsplit]
  rcases hk with rfl | rfl | rfl | rfl <;>
    simp [hsplit, hne, ht, lenPref_eq, inPref_eq, minPref_eq, maxPref_eq, rangePref_eq,
      intPattern_eq, stringPattern_eq, sliceIntPattern_eq, sliceStringPattern_eq]

theorem PVT_max (k t : GoString) (more : List GoString) (r : GoString) (n : Int)
    (hk : supportedKind k) (hsplit : strings.Split r 44 = t :: more) (hne : t ≠ [])
    (ht : strconv.Atoi t = (n, none)) :
    ParseValidateTags (maxPref ++ r) k =
      some ({ tp := maxPref, text := [], min := -INF, max := n, len := 0 }, none) := by
  simp only [ParseValidateTags, selectPref_max, sliceFrom_append, Option.some_bind, hsplit]
  rcases hk with rfl | rfl | rfl | rfl <;>
    simp [hsplit, hne, ht, lenPref_eq, inPref_eq, minPref_eq, maxPref_eq, rangePref_eq,
      intPattern_eq, stringPattern_eq, sliceIntPattern_eq, sliceStringPattern_eq]

theorem PVT_len (k t : GoString) (more : List GoString) (r : GoString) (n : Int)
    (hk : stringKind k) (hsplit : strings.Split r 44 = t :: more) (hne : t ≠ [])
    (ht : strconv.Atoi t = (n, none)) :
    ParseValidateTags (lenPref ++ r) k =
      some ({ tp := lenPref, text := [], min := -INF, max := INF, len := n }, none) := by
  simp only [ParseValidateTags, selectPref_len, sliceFrom_append, Option.some_bind, hsplit]
  rcases hk with rfl | rfl <;>
    simp [hsplit, hne, ht, lenPref_eq, inPref_eq, minPref_eq, maxPref_eq, rangePref_eq,
      intPattern_eq, stringPattern_eq, sliceIntPattern_eq, sliceStringPattern_eq]

theorem PVT_range (k t u : GoString) (more : List GoString) (r : GoString) (a b : Int)
    (hk : supportedKind k) (hsplit : strings.Split r 44 = t :: u :: more) (hne : t ≠ [])
    (ht : strconv.Atoi t = (a, none)) (hu : strconv.Atoi u = (b, none)) :
    ParseValidateTags (rangePref ++ r) k =
      some ({ tp := rangePref, text := [], min := a, max := b, len := 0 }, none) := by
  simp only [ParseValidateTags, selectPref_range, sliceFrom_append, Option.some_bind, hsplit]
  rcases hk with rfl | rfl | rfl | rfl <;>
    simp [hsplit, hne, ht, hu, lenPref_eq, inPref_eq, minPref_eq, maxPref_eq, rangePref_eq,
      intPattern_eq, stringPattern_eq, sliceIntPattern_eq, sliceStringPattern_eq]

theorem lit_comma : lit "," = [44] := by decide

theorem Split_Itoa (n : Int) : strings.Split (strconv.Itoa n) 44 = [strconv.Itoa n] :=
  Split_of_not_mem _ _ (strconv.Itoa_no_comma n)

theorem Split_Itoa_pair (a b : Int) :
    strings.Split (strconv.Itoa a ++ lit "," ++ strconv.Itoa b) 44 =
      [strconv.Itoa a, strconv.Itoa b] := by
  rw [lit_comma, List.append_assoc, List.singleton_append,
    Split_append_sep _ _ _ (strconv.Itoa_no_comma a), Split_Itoa]

/-- The parser on the tag `range:a,b`, for `a` and `b` within the range of `int`. -/
theorem PVT_range_Itoa (k : GoString) (a b : Int) (hk : supportedKind k)
    (ha : strconv.minInt ≤ a ∧ a ≤ strconv.maxInt) (hb : strconv.minInt ≤ b ∧ b ≤ strconv.maxInt) :
    ParseValidateTags (rangePref ++ (strconv.Itoa a ++ lit "," ++ strconv.Itoa b)) k =
      some ({ tp := rangePref, text := [], min := a, max := b, len := 0 }, none) :=
  PVT_range k _ _ [] _ a b hk (Split_Itoa_pair a b) (strconv.Itoa_ne_nil a)
    (strconv.Atoi_Itoa a ha.1 ha.2) (strconv.Atoi_Itoa b hb.1 hb.2)

/-- The evaluator for integers on a `range:` descriptor. -/
theorem ParseInt_range (a b v : Int) (text : List GoString) (l : Int) (fieldName : GoString)
    (errs : ValidationErrors) :
    ParseInt { tp := rangePref, text := text, min := a, max := b, len := l } v fieldName errs =
      if v < a ∨ v > b then errs ++ [violation fieldName ": the number is not in range"]
      else errs := by
  simp only [ParseInt, lenPref_eq, inPref_eq, minPref_eq, maxPref_eq, rangePref_eq]
  simp [or_comm]

/-- The evaluator for strings on a `range:` descriptor. -/
theorem ParseString_range (a b : Int) (s : GoString) (text : List GoString) (l : Int)
    (fieldName : GoString) (errs : ValidationErrors) :
    ParseString { tp := rangePref, text := text, min := a, max := b, len := l } s fieldName errs =
      if strLen s < a ∨ strLen s > b then
        errs ++ [violation fieldName ": string len is not in range"]
      else errs := by
  simp only [ParseString, lenPref_eq, inPref_eq, minPref_eq, maxPref_eq, rangePref_eq]
  simp [or_comm]

/-! ## The claims -/

/-- C1: for all integers `a ≤ b` within the range of `int`, written in decimal,
`ParseValidateTags("range:a,b", "int")` succeeds, and with the descriptor it
returns `ParseInt` appends a violation (exactly one, the range message) when
`v < a` or `v > b`, and leaves the accumulator as it was otherwise. -/
theorem C1_range_int_iff (a b : Int) (hlo : strconv.minInt ≤ a) (hab : a ≤ b)
    (hhi : b ≤ strconv.maxInt) :
    ParseValidateTags (rangePref ++ (strconv.Itoa a ++ lit "," ++ strconv.Itoa b)) intPattern =
        some ({ tp := rangePref, text := [], min := a, max := b, len := 0 }, none) ∧
      ∀ (v : Int) (fieldName : GoString) (errs : ValidationErrors),
        ParseInt { tp := rangePref, text := [], min := a, max := b, len := 0 } v fieldName errs =
          if v < a ∨ v > b then errs ++ [violation fieldName ": the number is not in range"]
          else errs :=
  ⟨PVT_range_Itoa intPattern a b (Or.inl rfl) ⟨hlo, by omega⟩ ⟨by omega, hhi⟩,
    fun v fieldName errs => ParseInt_range a b v [] 0 fieldName errs⟩

theorem C1_range_int_iff_witness :
    (strconv.minInt ≤ 1 ∧ (1 : Int) ≤ 10 ∧ 10 ≤ strconv.maxInt) ∧
      (ParseValidateTags (rangePref ++ (strconv.Itoa 1 ++ lit "," ++ strconv.Itoa 10)) intPattern =
        some ({ tp := rangePref, text := [], min := 1, max := 10, len := 0 }, none) ∧
      ∀ (v : Int) (fieldName : GoString) (errs : ValidationErrors),
        ParseInt { tp := rangePref, text := [], min := 1, max := 10, len := 0 } v fieldName errs =
          if v < 1 ∨ v > 10 then errs ++ [violation fieldName ": the number is not in range"]
          else errs) :=
  ⟨by decide, C1_range_int_iff 1 10 (by decide) (by decide) (by decide)⟩

/-- C2: for all integers `a > b` within the range of `int`, the tag
`range:a,b` parses, for each of the four kinds, to the descriptor with
`min = a` and `max = b`, and with that descriptor `ParseInt` appends the range
violation for every integer and `ParseString` for every string. -/
theorem C2_inverted_range_rejects_all (a b : Int) (k : GoString) (hk : supportedKind k)
    (hlo : strconv.minInt ≤ b) (hab : a > b) (hhi : a ≤ strconv.maxInt) :
    ParseValidateTags (rangePref ++ (strconv.Itoa a ++ lit "," ++ strconv.Itoa b)) k =
        some ({ tp := rangePref, text := [], min := a, max := b, len := 0 }, none) ∧
      (∀ (v : Int) (fieldName : GoString) (errs : ValidationErrors),
        ParseInt { tp := rangePref, text := [], min := a, max := b, len := 0 } v fieldName errs =
          errs ++ [violation fieldName ": the number is not in range"]) ∧
      (∀ (s fieldName : GoString) (errs : ValidationErrors),
        ParseString { tp := rangePref, text := [], min := a, max := b, len := 0 } s fieldName errs =
          errs ++ [violation fieldName ": string len is not in range"]) := by
  refine ⟨PVT_range_Itoa k a b hk ⟨by omega, hhi⟩ ⟨hlo, by omega⟩, ?_, ?_⟩
  · intro v fieldName errs
    rw [ParseInt_range, if_pos (by omega)]
  · intro s fieldName errs
    rw [ParseString_range, if_pos (by omega)]

theorem C2_inverted_range_rejects_all_witness :
    (supportedKind stringPattern ∧ strconv.minInt ≤ 1 ∧ (10 : Int) > 1 ∧ 10 ≤ strconv.maxInt) ∧
      (ParseValidateTags (rangePref ++ (strconv.Itoa 10 ++ lit "," ++ strconv.Itoa 1))
          stringPattern =
        some ({ tp := rangePref, text := [], min := 10, max := 1, len := 0 }, none) ∧
      (∀ (v : Int) (fieldName : GoString) (errs : ValidationErrors),
        ParseInt { tp := rangePref, text := [], min := 10, max := 1, len := 0 } v fieldName errs =
          errs ++ [violation fieldName ": the number is not in range"]) ∧
      (∀ (s fieldName : GoString) (errs : ValidationErrors),
        ParseString { tp := rangePref, text := [], min := 10, max := 1, len := 0 } s fieldName
            errs =
          errs ++ [violation fieldName ": string len is not in range"])) :=
  ⟨⟨Or.inr (Or.inl rfl), by decide, by decide, by decide⟩,
    C2_inverted_range_rejects_all 10 1 stringPattern (Or.inr (Or.inl rfl)) (by decide)
      (by decide) (by decide)⟩

/-- C2, as stated, fails outside the range of `int`: `9223372036854775808 > 1`,
and `ParseValidateTags("range:9223372036854775808,1", "int")` returns
`ErrInvalidValidatorSyntax`, because `Atoi` reports a range error on the first
token. -/
theorem C2_counterexample :
    (9223372036854775808 : Int) > 1 ∧
      rangePref ++ (strconv.Itoa 9223372036854775808 ++ lit "," ++ strconv.Itoa 1) =
        lit "range:9223372036854775808,1" ∧
      strconv.Atoi (lit "9223372036854775808") = (9223372036854775807, some .ErrRange) ∧
      ParseValidateTags (lit "range:9223372036854775808,1") intPattern =
        some (ValidateParams.zero, some .ErrInvalidValidatorSyntax) := by
  decide

theorem Split_Join (ts : List GoString) (hts : ts ≠ []) (hcomma : ∀ t ∈ ts, (44 : UInt8) ∉ t) :
    strings.Split (strings.Join ts (lit ",")) 44 = ts := by
  induction ts with
  | nil => exact absurd rfl hts
  | cons t rest ih =>
    cases rest with
    | nil => simpa [strings.Join] using Split_of_not_mem t 44 (hcomma t (by simp))
    | cons u rest =>
      have h1 := ih (by simp) (fun x hx => hcomma x (by simp [hx]))
      rw [lit_comma] at h1 ⊢
      simp only [strings.Join, List.append_assoc, List.singleton_append]
      rw [Split_append_sep _ _ _ (hcomma t (by simp)), h1]

/-- The parser on a tag `in:...` whose first token is not empty. -/
theorem PVT_in (k t : GoString) (more : List GoString) (r : GoString)
    (hk : supportedKind k) (hsplit : strings.Split r 44 = t :: more) (hne : t ≠ []) :
    ParseValidateTags (inPref ++ r) k =
      if (k = intPattern ∨ k = sliceIntPattern) ∧
          (t :: more).any (fun x => (strconv.Atoi x).2.isSome) = true then
        some (ValidateParams.zero, some .ErrInvalidValidatorSyntax)
      else some ({ tp := inPref, text := t :: more, min := -INF, max := INF, len := 0 }, none) := by
  simp only [ParseValidateTags, selectPref_in, sliceFrom_append, Option.some_bind, hsplit]
  rcases hk with rfl | rfl | rfl | rfl <;>
    simp [hne, lenPref_eq, inPref_eq, minPref_eq, maxPref_eq, rangePref_eq,
      intPattern_eq, stringPattern_eq, sliceIntPattern_eq, sliceStringPattern_eq]

/-- The parser on a tag whose first token, after a recognised prefix, is empty. -/
theorem PVT_empty_first (k p r : GoString) (more : List GoString) (hp : selectPref (p ++ r) = p)
    (hsplit : strings.Split r 44 = [] :: more) :
    ParseValidateTags (p ++ r) k = some (ValidateParams.zero, some .ErrInvalidValidatorSyntax) := by
  simp only [ParseValidateTags, hp, sliceFrom_append, Option.some_bind, hsplit]
  simp

/-- The evaluator for strings on an `in:` descriptor. -/
theorem ParseString_in (ts : List GoString) (a b l : Int) (s fieldName : GoString)
    (errs : ValidationErrors) :
    ParseString { tp := inPref, text := ts, min := a, max := b, len := l } s fieldName errs =
      if ∀ t ∈ ts, ¬ s <:+: t then errs ++ [violation fieldName ": the string is not in the list"]
      else errs := by
  simp only [ParseString, lenPref_eq, inPref_eq, minPref_eq, maxPref_eq, rangePref_eq,
    strings.Contains]
  by_cases h : ∀ t ∈ ts, ¬ s <:+: t
  · simp [h]
  · have h2 := h
    push_neg at h2
    simp [h, h2]

/-- The evaluator for integers on an `in:` descriptor. -/
theorem ParseInt_in (ts : List GoString) (a b l v : Int) (fieldName : GoString)
    (errs : ValidationErrors) :
    ParseInt { tp := inPref, text := ts, min := a, max := b, len := l } v fieldName errs =
      if ∀ t ∈ ts, (strconv.Atoi t).1 ≠ v then
        errs ++ [violation fieldName ": the number is not in the list"]
      else errs := by
  simp only [ParseInt, lenPref_eq, inPref_eq, minPref_eq, maxPref_eq, rangePref_eq]
  by_cases h : ∀ t ∈ ts, (strconv.Atoi t).1 ≠ v
  · simp [h]
  · have h2 := h
    push_neg at h2
    simp [h, h2]

/-- What a successful parse of an `in:` tag returns. -/
theorem PVT_in_ok (k : GoString) (ts : List GoString) (cnfg : ValidateParams)
    (hk : supportedKind k) (hts : ts ≠ []) (hcomma : ∀ t ∈ ts, (44 : UInt8) ∉ t)
    (hparse : ParseValidateTags (inPref ++ strings.Join ts (lit ",")) k = some (cnfg, none)) :
    cnfg = { tp := inPref, text := ts, min := -INF, max := INF, len := 0 } ∧
      ((k = intPattern ∨ k = sliceIntPattern) → ∀ t ∈ ts, (strconv.Atoi t).2 = none) := by
  have hsplit := Split_Join ts hts hcomma
  cases ts with
  | nil => exact absurd rfl hts
  | cons t more =>
    by_cases hne : t = []
    · subst hne
      rw [PVT_empty_first k inPref _ more (selectPref_in _) hsplit] at hparse
      simp at hparse
    · rw [PVT_in k t more _ hk hsplit hne] at hparse
      split at hparse
      · simp at hparse
      · rename_i hcond
        simp only [Option.some.injEq, Prod.mk.injEq, and_true] at hparse
        refine ⟨hparse.symm, fun hki x hx => ?_⟩
        by_contra hx2
        apply hcond
        refine ⟨hki, ?_⟩
        rw [List.any_eq_true]
        exact ⟨x, hx, by
          cases h : (strconv.Atoi x).2 with
          | none => exact absurd h hx2
          | some e => rfl⟩

/-- C3: string membership is substring containment. For every tag
`in:t1,...,tn` (the tokens `ts` joined by commas) that parses for the kind
`string`, and every string `s`, `ParseString` with the resulting descriptor
appends a violation (exactly one, the membership message) when no token
contains `s` as a substring, and leaves the accumulator as it was otherwise. -/
theorem C3_string_membership_substring (ts : List GoString) (cnfg : ValidateParams)
    (hts : ts ≠ []) (hcomma : ∀ t ∈ ts, (44 : UInt8) ∉ t)
    (hparse : ParseValidateTags (inPref ++ strings.Join ts (lit ",")) stringPattern =
      some (cnfg, none))
    (s fieldName : GoString) (errs : ValidationErrors) :
    ParseString cnfg s fieldName errs =
      if ∀ t ∈ ts, ¬ s <:+: t then errs ++ [violation fieldName ": the string is not in the list"]
      else errs := by
  obtain ⟨hc, -⟩ := PVT_in_ok stringPattern ts cnfg (Or.inr (Or.inl rfl)) hts hcomma hparse
  rw [hc, ParseString_in]

theorem C3_string_membership_substring_witness :
    ([lit "hello", lit "world"] ≠ [] ∧ (∀ t ∈ [lit "hello", lit "world"], (44 : UInt8) ∉ t) ∧
      ParseValidateTags (inPref ++ strings.Join [lit "hello", lit "world"] (lit ","))
          stringPattern =
        some
          ({ tp := inPref, text := [lit "hello", lit "world"], min := -INF, max := INF, len := 0 },
            none)) ∧
      ParseString { tp := inPref, text := [lit "hello", lit "world"], min := -INF, max := INF, len := 0 } (lit "ell") (lit "Word") [] = [] ∧
      ParseString { tp := inPref, text := [lit "hello", lit "world"], min := -INF, max := INF, len := 0 } (lit "xyz") (lit "Word") [] =
        [violation (lit "Word") ": the string is not in the list"] :=
  ⟨⟨by decide, by decide, by decide⟩,
    (C3_string_membership_substring [lit "hello", lit "world"] _ (by decide) (by decide)
      (by decide) (lit "ell") (lit "Word") []).trans (if_neg (by decide)),
    (C3_string_membership_substring [lit "hello", lit "world"] _ (by decide) (by decide)
      (by decide) (lit "xyz") (lit "Word") []).trans (if_pos (by decide))⟩

/-- C4: integer membership is equality on parsed values. For every tag
`in:t1,...,tn` (the tokens `ts` joined by commas) that parses for the kind
`int`, every token parses as an integer, and for every integer `v`, `ParseInt`
with the resulting descriptor appends a violation (exactly one, the membership
message) when `v` differs from the integer value of every token, and leaves
the accumulator as it was otherwise. -/
theorem C4_int_membership_equality (ts : List GoString) (cnfg : ValidateParams)
    (hts : ts ≠ []) (hcomma : ∀ t ∈ ts, (44 : UInt8) ∉ t)
    (hparse : ParseValidateTags (inPref ++ strings.Join ts (lit ",")) intPattern =
      some (cnfg, none))
    (v : Int) (fieldName : GoString) (errs : ValidationErrors) :
    (∀ t ∈ ts, (strconv.Atoi t).2 = none) ∧
      ParseInt cnfg v fieldName errs =
        if ∀ t ∈ ts, (strconv.Atoi t).1 ≠ v then
          errs ++ [violation fieldName ": the number is not in the list"]
        else errs := by
  obtain ⟨hc, hint⟩ := PVT_in_ok intPattern ts cnfg (Or.inl rfl) hts hcomma hparse
  refine ⟨hint (Or.inl rfl), ?_⟩
  rw [hc, ParseInt_in]

theorem C4_int_membership_equality_witness :
    ([lit "1", lit "2", lit "3"] ≠ [] ∧ (∀ t ∈ [lit "1", lit "2", lit "3"], (44 : UInt8) ∉ t) ∧
      ParseValidateTags (inPref ++ strings.Join [lit "1", lit "2", lit "3"] (lit ","))
          intPattern =
        some
          ({ tp := inPref, text := [lit "1", lit "2", lit "3"], min := -INF, max := INF, len := 0 },
            none)) ∧
      ParseInt { tp := inPref, text := [lit "1", lit "2", lit "3"], min := -INF, max := INF, len := 0 } 2 (lit "Num") [] = [] ∧
      ParseInt { tp := inPref, text := [lit "1", lit "2", lit "3"], min := -INF, max := INF, len := 0 } 4 (lit "Num") [] =
        [violation (lit "Num") ": the number is not in the list"] :=
  ⟨⟨by decide, by decide, by decide⟩,
    (C4_int_membership_equality [lit "1", lit "2", lit "3"] _ (by decide) (by decide)
      (by decide) 2 (lit "Num") []).2.trans (if_neg (by decide)),
    (C4_int_membership_equality [lit "1", lit "2", lit "3"] _ (by decide) (by decide)
      (by decide) 4 (lit "Num") []).2.trans (if_pos (by decide))⟩

/-- C5: for the kinds `int` and `[]int`, `ParseValidateTags` on a tag
`in:t1,...,tn` returns `ErrInvalidValidatorSyntax` whenever some token, the
first or a later one, fails to parse as an integer; and whenever it succeeds
the membership list of the descriptor is the token list and every entry of it
parses as an integer. -/
theorem C5_in_int_tokens_checked (k : GoString) (ts : List GoString)
    (hk : k = intPattern ∨ k = sliceIntPattern) (hts : ts ≠ [])
    (hcomma : ∀ t ∈ ts, (44 : UInt8) ∉ t) :
    ((∃ t ∈ ts, (strconv.Atoi t).2 ≠ none) →
        ParseValidateTags (inPref ++ strings.Join ts (lit ",")) k =
          some (ValidateParams.zero, some .ErrInvalidValidatorSyntax)) ∧
      (∀ cnfg, ParseValidateTags (inPref ++ strings.Join ts (lit ",")) k = some (cnfg, none) →
        cnfg.text = ts ∧ ∀ t ∈ cnfg.text, (strconv.Atoi t).2 = none) := by
  have hsup : supportedKind k := by
    rcases hk with h | h
    · exact Or.inl h
    · exact Or.inr (Or.inr (Or.inl h))
  constructor
  · rintro ⟨x, hx, hfail⟩
    have hsplit := Split_Join ts hts hcomma
    cases ts with
    | nil => exact absurd rfl hts
    | cons t more =>
      by_cases hne : t = []
      · subst hne
        exact PVT_empty_first k inPref _ more (selectPref_in _) hsplit
      · rw [PVT_in k t more _ hsup hsplit hne, if_pos]
        refine ⟨hk, ?_⟩
        rw [List.any_eq_true]
        refine ⟨x, hx, ?_⟩
        cases h : (strconv.Atoi x).2 with
        | none => exact absurd h hfail
        | some e => rfl
  · intro cnfg hparse
    obtain ⟨hc, hint⟩ := PVT_in_ok k ts cnfg hsup hts hcomma hparse
    subst hc
    exact ⟨rfl, hint hk⟩

theorem C5_in_int_tokens_checked_witness :
    ((intPattern = intPattern ∨ intPattern = sliceIntPattern) ∧ [lit "1", lit "x"] ≠ [] ∧
      (∀ t ∈ [lit "1", lit "x"], (44 : UInt8) ∉ t) ∧
      (∃ t ∈ [lit "1", lit "x"], (strconv.Atoi t).2 ≠ none)) ∧
      ParseValidateTags (inPref ++ strings.Join [lit "1", lit "x"] (lit ",")) intPattern =
        some (ValidateParams.zero, some .ErrInvalidValidatorSyntax) ∧
      ParseValidateTags (inPref ++ strings.Join [lit "abc", lit "2"] (lit ",")) sliceIntPattern =
        some (ValidateParams.zero, some .ErrInvalidValidatorSyntax) :=
  ⟨⟨Or.inl rfl, by decide, by decide, by decide⟩,
    (C5_in_int_tokens_checked intPattern [lit "1", lit "x"] (Or.inl rfl) (by decide)
      (by decide)).1 (by decide),
    (C5_in_int_tokens_checked sliceIntPattern [lit "abc", lit "2"] (Or.inr rfl) (by decide)
      (by decide)).1 (by decide)⟩

/-- C6: for every tag that begins with `len:`, whatever follows, and the kind
`int` or `[]int`, `ParseValidateTags` returns `ErrInvalidValidatorSyntax`. -/
theorem C6_len_on_int_kinds_rejected (s k : GoString)
    (hs : strings.HasPrefix s lenPref = true) (hk : k = intPattern ∨ k = sliceIntPattern) :
    ParseValidateTags s k = some (ValidateParams.zero, some .ErrInvalidValidatorSyntax) := by
  obtain ⟨r, rfl⟩ := List.isPrefixOf_iff_prefix.mp hs
  simp only [ParseValidateTags, selectPref_len]
  rcases hk with rfl | rfl <;>
    simp [lenPref_eq, intPattern_eq, stringPattern_eq, sliceIntPattern_eq, sliceStringPattern_eq]

theorem C6_len_on_int_kinds_rejected_witness :
    (strings.HasPrefix (lit "len:5") lenPref = true ∧
      (sliceIntPattern = intPattern ∨ sliceIntPattern = sliceIntPattern)) ∧
      ParseValidateTags (lit "len:5") sliceIntPattern =
        some (ValidateParams.zero, some .ErrInvalidValidatorSyntax) :=
  ⟨⟨by decide, Or.inr rfl⟩,
    C6_len_on_int_kinds_rejected (lit "len:5") sliceIntPattern (by decide) (Or.inr rfl)⟩

/-- The parser when the first token of a `len:`, `min:`, `max:` or `range:` tag
does not parse as an integer. -/
theorem PVT_first_token_bad (k p r t : GoString) (more : List GoString)
    (hp : selectPref (p ++ r) = p) (hpin : p ≠ inPref)
    (hsplit : strings.Split r 44 = t :: more) (hbad : (strconv.Atoi t).2 ≠ none) :
    ParseValidateTags (p ++ r) k = some (ValidateParams.zero, some .ErrInvalidValidatorSyntax) := by
  simp only [ParseValidateTags, hp, sliceFrom_append, Option.some_bind, hsplit,
    List.getElem?_cons_zero, hpin, if_false]
  rcases hA : strconv.Atoi t with ⟨x, _ | e⟩
  · rw [hA] at hbad; exact absurd rfl hbad
  · split_ifs <;> rfl

/-- The parser on a `range:` tag with a single token. -/
theorem PVT_range_single (k r t : GoString) (hsplit : strings.Split r 44 = [t]) :
    ParseValidateTags (rangePref ++ r) k =
      some (ValidateParams.zero, some .ErrInvalidValidatorSyntax) := by
  simp only [ParseValidateTags, selectPref_range, sliceFrom_append, Option.some_bind, hsplit]
  simp

/-- The parser on a `range:` tag whose second token does not parse as an integer. -/
theorem PVT_range_second_bad (k r t u : GoString) (more : List GoString)
    (hsplit : strings.Split r 44 = t :: u :: more) (hbad : (strconv.Atoi u).2 ≠ none) :
    ParseValidateTags (rangePref ++ r) k =
      some (ValidateParams.zero, some .ErrInvalidValidatorSyntax) := by
  simp only [ParseValidateTags, selectPref_range, sliceFrom_append, Option.some_bind, hsplit,
    List.getElem?_cons_zero]
  rcases hB : strconv.Atoi u with ⟨y, _ | e⟩
  · rw [hB] at hbad; exact absurd rfl hbad
  · rcases hA : strconv.Atoi t with ⟨x, _ | e2⟩ <;>
      simp [lenPref_eq, inPref_eq, minPref_eq, maxPref_eq, rangePref_eq, hB]

/-- The parser on a tag that begins with none of the five prefixes. -/
theorem PVT_no_pref (s k : GoString) (h : selectPref s = []) :
    ParseValidateTags s k = some (ValidateParams.zero, some .ErrInvalidValidatorSyntax) := by
  simp [ParseValidateTags, h]

/-- Every error of the parser is `ErrInvalidValidatorSyntax`, returned with the
zero descriptor. -/
theorem PVT_error_uniform (s k : GoString) (cnfg : ValidateParams) (e : GoError)
    (h : ParseValidateTags s k = some (cnfg, some e)) :
    e = .ErrInvalidValidatorSyntax ∧ cnfg = ValidateParams.zero := by
  simp only [ParseValidateTags] at h
  cases hsl : sliceFrom s (selectPref s).length with
  | none =>
    simp only [hsl, Option.none_bind] at h
    split_ifs at h <;> cases h <;> exact ⟨rfl, rfl⟩
  | some rest =>
    simp only [hsl, Option.some_bind] at h
    cases hv0 : (strings.Split rest 44)[0]? with
    | none =>
      simp only [hv0, Option.none_bind] at h
      split_ifs at h <;> cases h <;> exact ⟨rfl, rfl⟩
    | some v0 =>
      simp only [hv0, Option.some_bind] at h
      rcases hA : strconv.Atoi v0 with ⟨x, _ | ea⟩ <;> simp only [hA] at h
      · cases hv1 : (strings.Split rest 44)[1]? with
        | none =>
          simp only [hv1, Option.none_bind] at h
          split_ifs at h <;> cases h <;> exact ⟨rfl, rfl⟩
        | some v1 =>
          simp only [hv1, Option.some_bind] at h
          rcases hB : strconv.Atoi v1 with ⟨y, _ | eb⟩ <;> simp only [hB] at h <;>
            split_ifs at h <;> cases h <;> exact ⟨rfl, rfl⟩
      · split_ifs at h <;> cases h <;> exact ⟨rfl, rfl⟩

theorem selectPref_of_mem (p r : GoString)
    (hp : p ∈ [lenPref, inPref, minPref, maxPref, rangePref]) : selectPref (p ++ r) = p := by
  simp only [List.mem_cons, List.mem_singleton, List.not_mem_nil, or_false] at hp
  rcases hp with rfl | rfl | rfl | rfl | rfl
  · exact selectPref_len r
  · exact selectPref_in r
  · exact selectPref_min r
  · exact selectPref_max r
  · exact selectPref_range r

theorem selectPref_none (s : GoString)
    (h : ∀ p ∈ [lenPref, inPref, minPref, maxPref, rangePref], strings.HasPrefix s p = false) :
    selectPref s = [] := by
  simp only [List.mem_cons, List.mem_singleton, List.not_mem_nil, or_false, forall_eq_or_imp,
    forall_eq] at h
  obtain ⟨h1, h2, h3, h4, h5⟩ := h
  simp [selectPref, List.find?, h1, h2, h3, h4, h5]

/-- The evaluator for strings on a `min:` descriptor. -/
theorem ParseString_min (a b l : Int) (s : GoString) (text : List GoString)
    (fieldName : GoString) (errs : ValidationErrors) :
    ParseString { tp := minPref, text := text, min := a, max := b, len := l } s fieldName errs =
      if strLen s < a then
        errs ++ [violation fieldName ": string len is less than the lower bound"]
      else errs := by
  simp only [ParseString, lenPref_eq, inPref_eq, minPref_eq, maxPref_eq, rangePref_eq]
  simp

/-- The evaluator for strings on a `len:` descriptor. -/
theorem ParseString_len (a b l : Int) (s : GoString) (text : List GoString)
    (fieldName : GoString) (errs : ValidationErrors) :
    ParseString { tp := lenPref, text := text, min := a, max := b, len := l } s fieldName errs =
      if strLen s ≠ l then errs ++ [violation fieldName ": incorrect string len"]
      else errs := by
  simp only [ParseString, lenPref_eq, inPref_eq, minPref_eq, maxPref_eq, rangePref_eq]
  simp

/-- C7, as the code has it: for the kinds `string` and `[]string` a `len:` tag
is accepted only when its first token parses as an integer, which then is the
`len` of the descriptor, and the sign of that integer is not looked at: for
every negative integer `n` within the range of `int`, `len:n` is accepted with
`len = n`. -/
theorem C7_len_accepts_negative (k : GoString) (hk : stringKind k) :
    (∀ (r : GoString) (cnfg : ValidateParams),
        ParseValidateTags (lenPref ++ r) k = some (cnfg, none) →
        ∃ t more, strings.Split r 44 = t :: more ∧ strconv.Atoi t = (cnfg.len, none)) ∧
      (∀ n : Int, strconv.minInt ≤ n → n < 0 →
        ParseValidateTags (lenPref ++ strconv.Itoa n) k =
          some ({ tp := lenPref, text := [], min := -INF, max := INF, len := n }, none)) := by
  constructor
  · intro r cnfg hparse
    rcases hsplit : strings.Split r 44 with _ | ⟨t, more⟩
    · exact absurd hsplit (Split_ne_nil r 44)
    · refine ⟨t, more, rfl, ?_⟩
      by_cases hne : t = []
      · subst hne
        rw [PVT_empty_first k lenPref r more (selectPref_len r) hsplit] at hparse
        cases hparse
      · rcases hA : strconv.Atoi t with ⟨x, _ | e⟩
        · rw [PVT_len k t more r x hk hsplit hne hA] at hparse
          cases hparse
          rfl
        · rw [PVT_first_token_bad k lenPref r t more (selectPref_len r) (by decide) hsplit
            (by rw [hA]; simp)] at hparse
          cases hparse
  · intro n hlo hneg
    exact PVT_len k _ [] _ n hk (Split_Itoa n) (strconv.Itoa_ne_nil n)
      (strconv.Atoi_Itoa n hlo (by simp only [strconv.maxInt, strconv.IntSize]; omega))

theorem C7_len_accepts_negative_witness :
    (stringKind stringPattern ∧ strconv.minInt ≤ -5 ∧ (-5 : Int) < 0) ∧
      ParseValidateTags (lenPref ++ strconv.Itoa (-5)) stringPattern =
        some ({ tp := lenPref, text := [], min := -INF, max := INF, len := -5 }, none) :=
  ⟨⟨Or.inl rfl, by decide, by decide⟩,
    (C7_len_accepts_negative stringPattern (Or.inl rfl)).2 (-5) (by decide) (by decide)⟩

/-- C7, as stated, fails: `-5` is a negative integer and
`ParseValidateTags("len:-5", "string")` returns a descriptor with `len = -5`
and a `nil` error, not `ErrInvalidValidatorSyntax`. -/
theorem C7_counterexample :
    (-5 : Int) < 0 ∧ lenPref ++ strconv.Itoa (-5) = lit "len:-5" ∧
      ParseValidateTags (lit "len:-5") stringPattern =
        some ({ tp := lenPref, text := [], min := -INF, max := INF, len := -5 }, none) ∧
      ParseValidateTags (lit "len:-5") stringPattern ≠
        some (ValidateParams.zero, some .ErrInvalidValidatorSyntax) := by
  decide

/-- C8: for every integer `n` within the range of `int`, written in decimal,
`ParseValidateTags("min:n", "string")` succeeds with `min = n`, and with the
descriptor it returns `ParseString` appends a violation (exactly one, the
lower-bound message) when `len(s) < n`, and leaves the accumulator as it was
otherwise. -/
theorem C8_min_string_iff (n : Int) (hlo : strconv.minInt ≤ n) (hhi : n ≤ strconv.maxInt) :
    ParseValidateTags (minPref ++ strconv.Itoa n) stringPattern =
        some ({ tp := minPref, text := [], min := n, max := INF, len := 0 }, none) ∧
      ∀ (s fieldName : GoString) (errs : ValidationErrors),
        ParseString { tp := minPref, text := [], min := n, max := INF, len := 0 } s fieldName errs =
          if strLen s < n then
            errs ++ [violation fieldName ": string len is less than the lower bound"]
          else errs :=
  ⟨PVT_min stringPattern _ [] _ n (Or.inr (Or.inl rfl)) (Split_Itoa n) (strconv.Itoa_ne_nil n)
      (strconv.Atoi_Itoa n hlo hhi),
    fun s fieldName errs => ParseString_min n INF 0 s [] fieldName errs⟩

theorem C8_min_string_iff_witness :
    (strconv.minInt ≤ 5 ∧ 5 ≤ strconv.maxInt) ∧
      ParseValidateTags (minPref ++ strconv.Itoa 5) stringPattern =
        some ({ tp := minPref, text := [], min := 5, max := INF, len := 0 }, none) ∧
      ParseString { tp := minPref, text := [], min := 5, max := INF, len := 0 } (lit "abcd")
          (lit "Word") [] =
        [violation (lit "Word") ": string len is less than the lower bound"] ∧
      ParseString { tp := minPref, text := [], min := 5, max := INF, len := 0 } (lit "abcde")
          (lit "Word") [] = [] :=
  ⟨by decide, (C8_min_string_iff 5 (by decide) (by decide)).1,
    ((C8_min_string_iff 5 (by decide) (by decide)).2 (lit "abcd") (lit "Word") []).trans
      (if_pos (by decide)),
    ((C8_min_string_iff 5 (by decide) (by decide)).2 (lit "abcde") (lit "Word") []).trans
      (if_neg (by decide))⟩

/-- C8, as stated, fails outside the range of `int`:
`ParseValidateTags("min:9223372036854775808", "string")` returns
`ErrInvalidValidatorSyntax`, because `Atoi` reports a range error on the
token. -/
theorem C8_counterexample :
    minPref ++ strconv.Itoa 9223372036854775808 = lit "min:9223372036854775808" ∧
      strconv.Atoi (lit "9223372036854775808") = (9223372036854775807, some .ErrRange) ∧
      ParseValidateTags (lit "min:9223372036854775808") stringPattern =
        some (ValidateParams.zero, some .ErrInvalidValidatorSyntax) := by
  decide

/-- C9: for every non-negative integer `n` within the range of `int`, written
in decimal, `ParseValidateTags("len:n", "string")` succeeds with `len = n`, and
with the descriptor it returns `ParseString` appends a violation (exactly one,
the length message) when `len(s) ≠ n`, and leaves the accumulator as it was
otherwise. -/
theorem C9_len_string_iff (n : Int) (hlo : 0 ≤ n) (hhi : n ≤ strconv.maxInt) :
    ParseValidateTags (lenPref ++ strconv.Itoa n) stringPattern =
        some ({ tp := lenPref, text := [], min := -INF, max := INF, len := n }, none) ∧
      ∀ (s fieldName : GoString) (errs : ValidationErrors),
        ParseString { tp := lenPref, text := [], min := -INF, max := INF, len := n } s fieldName
            errs =
          if strLen s ≠ n then errs ++ [violation fieldName ": incorrect string len"]
          else errs :=
  ⟨PVT_len stringPattern _ [] _ n (Or.inl rfl) (Split_Itoa n) (strconv.Itoa_ne_nil n)
      (strconv.Atoi_Itoa n (by simp only [strconv.minInt, strconv.IntSize]; omega) hhi),
    fun s fieldName errs => ParseString_len (-INF) INF n s [] fieldName errs⟩

theorem C9_len_string_iff_witness :
    ((0 : Int) ≤ 3 ∧ 3 ≤ strconv.maxInt) ∧
      ParseValidateTags (lenPref ++ strconv.Itoa 3) stringPattern =
        some ({ tp := lenPref, text := [], min := -INF, max := INF, len := 3 }, none) ∧
      ParseString { tp := lenPref, text := [], min := -INF, max := INF, len := 3 } (lit "abcd")
          (lit "Word") [] =
        [violation (lit "Word") ": incorrect string len"] ∧
      ParseString { tp := lenPref, text := [], min := -INF, max := INF, len := 3 } (lit "abc")
          (lit "Word") [] = [] :=
  ⟨by decide, (C9_len_string_iff 3 (by decide) (by decide)).1,
    ((C9_len_string_iff 3 (by decide) (by decide)).2 (lit "abcd") (lit "Word") []).trans
      (if_pos (by decide)),
    ((C9_len_string_iff 3 (by decide) (by decide)).2 (lit "abc") (lit "Word") []).trans
      (if_neg (by decide))⟩

/-- C9, as stated, fails outside the range of `int`: `9223372036854775808` is
not negative, and `ParseValidateTags("len:9223372036854775808", "string")`
returns `ErrInvalidValidatorSyntax`, because `Atoi` reports a range error on
the token. -/
theorem C9_counterexample :
    (0 : Int) ≤ 9223372036854775808 ∧
      lenPref ++ strconv.Itoa 9223372036854775808 = lit "len:9223372036854775808" ∧
      strconv.Atoi (lit "9223372036854775808") = (9223372036854775807, some .ErrRange) ∧
      ParseValidateTags (lit "len:9223372036854775808") stringPattern =
        some (ValidateParams.zero, some .ErrInvalidValidatorSyntax) := by
  decide

/-- C10: `ParseValidateTags` fails with `ErrInvalidValidatorSyntax`, for every
kind, in each of these cases: the tag begins with none of the five prefixes;
the first token after the prefix is empty; the prefix is `range:` and there is
one token only; the first token of a `len:`, `min:`, `max:` or `range:` tag
does not parse as an integer; the second token of a `range:` tag does not
parse as an integer. And no call returns any other error. -/
theorem C10_uniform_syntax_error (s k : GoString) :
    ((∀ p ∈ [lenPref, inPref, minPref, maxPref, rangePref], strings.HasPrefix s p = false) →
        ParseValidateTags s k = some (ValidateParams.zero, some .ErrInvalidValidatorSyntax)) ∧
      (∀ p ∈ [lenPref, inPref, minPref, maxPref, rangePref], ∀ r more,
        s = p ++ r → strings.Split r 44 = [] :: more →
        ParseValidateTags s k = some (ValidateParams.zero, some .ErrInvalidValidatorSyntax)) ∧
      (∀ r t, s = rangePref ++ r → strings.Split r 44 = [t] →
        ParseValidateTags s k = some (ValidateParams.zero, some .ErrInvalidValidatorSyntax)) ∧
      (∀ p ∈ [lenPref, minPref, maxPref, rangePref], ∀ r t more,
        s = p ++ r → strings.Split r 44 = t :: more → (strconv.Atoi t).2 ≠ none →
        ParseValidateTags s k = some (ValidateParams.zero, some .ErrInvalidValidatorSyntax)) ∧
      (∀ r t u more, s = rangePref ++ r → strings.Split r 44 = t :: u :: more →
        (strconv.Atoi u).2 ≠ none →
        ParseValidateTags s k = some (ValidateParams.zero, some .ErrInvalidValidatorSyntax)) ∧
      (∀ cnfg e, ParseValidateTags s k = some (cnfg, some e) →
        e = .ErrInvalidValidatorSyntax) := by
  refine ⟨fun h => PVT_no_pref s k (selectPref_none s h), ?_, ?_, ?_, ?_, ?_⟩
  · rintro p hp r more rfl hsplit
    exact PVT_empty_first k p r more (selectPref_of_mem p r hp) hsplit
  · rintro r t rfl hsplit
    exact PVT_range_single k r t hsplit
  · rintro p hp r t more rfl hsplit hbad
    have hmem : p ∈ [lenPref, inPref, minPref, maxPref, rangePref] := by
      simp only [List.mem_cons, List.mem_singleton, List.not_mem_nil, or_false] at hp ⊢
      tauto
    have hpin : p ≠ inPref := by
      simp only [List.mem_cons, List.mem_singleton, List.not_mem_nil, or_false] at hp
      rcases hp with rfl | rfl | rfl | rfl <;> decide
    exact PVT_first_token_bad k p r t more (selectPref_of_mem p r hmem) hpin hsplit hbad
  · rintro r t u more rfl hsplit hbad
    exact PVT_range_second_bad k r t u more hsplit hbad
  · intro cnfg e h
    exact (PVT_error_uniform s k cnfg e h).1

theorem C10_uniform_syntax_error_witness :
    ParseValidateTags (lit "size:3") intPattern =
        some (ValidateParams.zero, some .ErrInvalidValidatorSyntax) ∧
      ParseValidateTags (lit "min:,7") stringPattern =
        some (ValidateParams.zero, some .ErrInvalidValidatorSyntax) ∧
      ParseValidateTags (rangePref ++ lit "5") sliceIntPattern =
        some (ValidateParams.zero, some .ErrInvalidValidatorSyntax) ∧
      ParseValidateTags (maxPref ++ lit "1x") sliceStringPattern =
        some (ValidateParams.zero, some .ErrInvalidValidatorSyntax) ∧
      ParseValidateTags (rangePref ++ lit "1,y") intPattern =
        some (ValidateParams.zero, some .ErrInvalidValidatorSyntax) :=
  ⟨(C10_uniform_syntax_error (lit "size:3") intPattern).1 (by decide),
    (C10_uniform_syntax_error (lit "min:,7") stringPattern).2.1 minPref (by decide) (lit ",7")
      [lit "7"] (by decide) (by decide),
    (C10_uniform_syntax_error (rangePref ++ lit "5") sliceIntPattern).2.2.1 (lit "5") (lit "5")
      rfl (by decide),
    (C10_uniform_syntax_error (maxPref ++ lit "1x") sliceStringPattern).2.2.2.1 maxPref
      (by decide) (lit "1x") (lit "1x") [] rfl (by decide) (by decide),
    (C10_uniform_syntax_error (rangePref ++ lit "1,y") intPattern).2.2.2.2.1 (lit "1,y")
      (lit "1") (lit "y") [] rfl (by decide) (by decide)⟩

/-! ## The evaluator only appends, and at most once -/

theorem ParseInt_append (cnfg : ValidateParams) (num : Int) (fieldName : GoString)
    (errs : ValidationErrors) :
    ParseInt cnfg num fieldName errs = errs ++ ParseInt cnfg num fieldName [] := by
  simp only [ParseInt]
  split_ifs <;> simp_all [lenPref_eq, inPref_eq, minPref_eq, maxPref_eq, rangePref_eq]

theorem ParseInt_length_le (cnfg : ValidateParams) (num : Int) (fieldName : GoString) :
    (ParseInt cnfg num fieldName []).length ≤ 1 := by
  simp only [ParseInt]
  split_ifs <;> simp_all [lenPref_eq, inPref_eq, minPref_eq, maxPref_eq, rangePref_eq]

theorem ParseString_append (cnfg : ValidateParams) (s fieldName : GoString)
    (errs : ValidationErrors) :
    ParseString cnfg s fieldName errs = errs ++ ParseString cnfg s fieldName [] := by
  simp only [ParseString]
  split_ifs <;> simp_all [lenPref_eq, inPref_eq, minPref_eq, maxPref_eq, rangePref_eq]

theorem ParseString_length_le (cnfg : ValidateParams) (s fieldName : GoString) :
    (ParseString cnfg s fieldName []).length ≤ 1 := by
  simp only [ParseString]
  split_ifs <;> simp_all [lenPref_eq, inPref_eq, minPref_eq, maxPref_eq, rangePref_eq]

/-- C11: for every descriptor, hand-built ones included, every value and every
field name, one call of `ParseInt` or of `ParseString` returns the accumulator
it was given followed by at most one new violation. -/
theorem C11_scalar_call_appends_at_most_one (cnfg : ValidateParams) (fieldName : GoString)
    (errs : ValidationErrors) :
    (∀ num : Int, ∃ added : ValidationErrors,
        ParseInt cnfg num fieldName errs = errs ++ added ∧ added.length ≤ 1) ∧
      (∀ s : GoString, ∃ added : ValidationErrors,
        ParseString cnfg s fieldName errs = errs ++ added ∧ added.length ≤ 1) :=
  ⟨fun num => ⟨ParseInt cnfg num fieldName [], ParseInt_append cnfg num fieldName errs,
      ParseInt_length_le cnfg num fieldName⟩,
    fun s => ⟨ParseString cnfg s fieldName [], ParseString_append cnfg s fieldName errs,
      ParseString_length_le cnfg s fieldName⟩⟩

/-! ## The orchestrator -/

theorem validateFields_append (xs ys : List StructField) (errs : ValidationErrors) :
    validateFields (xs ++ ys) errs = (validateFields xs errs).bind (validateFields ys) := by
  induction xs generalizing errs with
  | nil => simp [validateFields]
  | cons f fs ih =>
    simp only [List.cons_append, validateFields]
    cases validateField f errs with
    | none => simp
    | some e => simp [ih]

theorem validateField_untagged (f : StructField) (errs : ValidationErrors) (h : f.tag = none) :
    validateField f errs = some errs := by
  simp [validateField, h]

theorem validateFields_untagged (fs : List StructField) (errs : ValidationErrors)
    (h : ∀ f ∈ fs, f.tag = none) : validateFields fs errs = some errs := by
  induction fs with
  | nil => simp [validateFields]
  | cons f fs ih =>
    simp only [validateFields]
    rw [validateField_untagged f errs (h f (by simp))]
    simpa using ih (fun g hg => h g (by simp [hg]))

theorem validateField_unexported (f : StructField) (s : GoString) (errs : ValidationErrors)
    (htag : f.tag = some s) (hexp : f.exported = false) :
    validateField f errs = some (errs ++ [⟨.ErrValidateForUnexportedFields⟩]) := by
  simp [validateField, htag, hexp]

/-- What `Validate` returns for a value that is neither nil nor a struct. -/
theorem Validate_not_struct (r : Reflected) (before : ValidationErrors)
    (h : r.kind ≠ reflect.Kind.Struct) :
    Validate (some r) before = some (some [⟨.ErrNotStruct⟩], [⟨.ErrNotStruct⟩]) := by
  simp [Validate, h]

/-- C12, where the code departs from it: on the nil value `Validate` panics, at
`reflect.TypeOf(v).Kind()`, whatever the accumulator holds; on every other
value that is not a struct it returns the single violation `ErrNotStruct`. -/
theorem C12_nil_panics_other_kinds_rejected :
    (∀ before : ValidationErrors, Validate none before = none) ∧
      (∀ (r : Reflected) (before : ValidationErrors), r.kind ≠ reflect.Kind.Struct →
        Validate (some r) before = some (some [⟨.ErrNotStruct⟩], [⟨.ErrNotStruct⟩])) :=
  ⟨fun _ => rfl, fun r before h => Validate_not_struct r before h⟩

theorem length_flatMap_le_one {α β : Type} (g : α → List β) (hg : ∀ x, (g x).length ≤ 1)
    (xs : List α) : (xs.flatMap g).length = xs.countP (fun x => !(g x).isEmpty) := by
  induction xs with
  | nil => simp
  | cons x xs ih =>
    rw [List.flatMap_cons, List.length_append, ih, List.countP_cons]
    have h1 := hg x
    cases hx : g x with
    | nil => simp
    | cons b bs =>
      rw [hx] at h1
      simp only [List.length_cons] at h1
      simp
      omega

theorem foldl_ParseInt (cnfg : ValidateParams) (fieldName : GoString) (xs : List Int)
    (errs : ValidationErrors) :
    xs.foldl (fun errs item => ParseInt cnfg item fieldName errs) errs =
      errs ++ xs.flatMap (fun item => ParseInt cnfg item fieldName []) := by
  induction xs generalizing errs with
  | nil => simp
  | cons x xs ih =>
    rw [List.foldl_cons, ih, ParseInt_append, List.flatMap_cons, List.append_assoc]

theorem foldl_ParseString (cnfg : ValidateParams) (fieldName : GoString) (xs : List GoString)
    (errs : ValidationErrors) :
    xs.foldl (fun errs item => ParseString cnfg item fieldName errs) errs =
      errs ++ xs.flatMap (fun item => ParseString cnfg item fieldName []) := by
  induction xs generalizing errs with
  | nil => simp
  | cons x xs ih =>
    rw [List.foldl_cons, ih, ParseString_append, List.flatMap_cons, List.append_assoc]

theorem validateField_sliceInt (f : StructField) (s : GoString) (cnfg : ValidateParams)
    (xs : List Int) (errs : ValidationErrors) (htag : f.tag = some s) (hexp : f.exported = true)
    (hval : f.value = .sliceInt xs)
    (hparse : ParseValidateTags s sliceIntPattern = some (cnfg, none)) :
    validateField f errs =
      some (errs ++ xs.flatMap (fun item => ParseInt cnfg item f.Name [])) := by
  simp only [validateField, htag, hexp, hval, FieldValue.typeString, hparse, Option.some_bind,
    FieldValue.assertSliceInt, FieldValue.assertSliceString]
  simp [sliceIntPattern_eq, intPattern_eq, stringPattern_eq, foldl_ParseInt]

theorem validateField_sliceString (f : StructField) (s : GoString) (cnfg : ValidateParams)
    (xs : List GoString) (errs : ValidationErrors) (htag : f.tag = some s)
    (hexp : f.exported = true) (hval : f.value = .sliceString xs)
    (hparse : ParseValidateTags s sliceStringPattern = some (cnfg, none)) :
    validateField f errs =
      some (errs ++ xs.flatMap (fun item => ParseString cnfg item f.Name [])) := by
  simp only [validateField, htag, hexp, hval, FieldValue.typeString, hparse, Option.some_bind,
    FieldValue.assertSliceInt, FieldValue.assertSliceString]
  simp [sliceIntPattern_eq, sliceStringPattern_eq, intPattern_eq, stringPattern_eq,
    foldl_ParseString]

/-! ## `Validate` on a struct, field by field -/

theorem validateField_append_only (f : StructField) (errs : ValidationErrors) :
    validateField f errs = (validateField f []).map fun added => errs ++ added := by
  unfold validateField
  cases htag : f.tag with
  | none => simp
  | some s =>
    simp only
    by_cases hexp : f.exported = true
    swap
    · simp [hexp]
    simp only [hexp, Bool.not_true, Bool.false_eq_true, if_false]
    cases hp : ParseValidateTags s f.value.typeString with
    | none => simp
    | some res =>
      obtain ⟨cnfg, _ | err⟩ := res
      · simp only [Option.some_bind]
        split_ifs
        · cases f.value.reflectInt with
          | none => simp
          | some num => simp [ParseInt_append cnfg num f.Name errs]
        · simp [ParseString_append cnfg _ f.Name errs]
        · simp [foldl_ParseInt, foldl_ParseString]
        · simp [foldl_ParseInt, foldl_ParseString]
      · simp

theorem validateFields_append_only (fs : List StructField) (errs : ValidationErrors) :
    validateFields fs errs = (validateFields fs []).map fun added => errs ++ added := by
  induction fs generalizing errs with
  | nil => simp [validateFields]
  | cons f fs ih =>
    simp only [validateFields]
    rw [validateField_append_only f errs]
    cases validateField f [] with
    | none => simp
    | some a =>
      simp only [Option.map_some', Option.some_bind]
      rw [ih (errs ++ a), ih a]
      cases validateFields fs [] with
      | none => simp
      | some b => simp

/-- On a struct `Validate` returns what the loop over the fields leaves,
started from the empty accumulator. -/
theorem Validate_struct (fs : List StructField) (prior : ValidationErrors) :
    Validate (some ⟨.Struct, fs⟩) prior =
      (validateFields fs []).map fun errs =>
        (if errs.length = 0 then none else some errs, errs) := by
  simp [Validate]

theorem Validate_struct_acc (fs : List StructField) (prior : ValidationErrors)
    (res : Option ValidationErrors) (acc : ValidationErrors)
    (h : Validate (some ⟨.Struct, fs⟩) prior = some (res, acc)) :
    validateFields fs [] = some acc := by
  rw [Validate_struct] at h
  cases hv : validateFields fs [] with
  | none => simp [hv] at h
  | some a =>
    simp only [hv, Option.map_some', Option.some.injEq, Prod.mk.injEq] at h
    rw [h.2]

/-- The accumulator `Validate` leaves for a struct whose fields are `before`,
then `f`, then `rest`, from what it leaves for `before` alone and for `rest`
alone and from what the turn for `f` adds. -/
theorem Validate_struct_split (before rest : List StructField) (f : StructField)
    (prior : ValidationErrors) (resB resR : Option ValidationErrors)
    (accB accR added : ValidationErrors)
    (hB : Validate (some ⟨.Struct, before⟩) prior = some (resB, accB))
    (hR : Validate (some ⟨.Struct, rest⟩) prior = some (resR, accR))
    (hf : validateField f [] = some added) :
    Validate (some ⟨.Struct, before ++ f :: rest⟩) prior =
      some (if (accB ++ added ++ accR).length = 0 then none else some (accB ++ added ++ accR),
        accB ++ added ++ accR) := by
  have h1 := Validate_struct_acc before prior resB accB hB
  have h2 := Validate_struct_acc rest prior resR accR hR
  rw [Validate_struct, validateFields_append, h1]
  simp only [Option.some_bind, validateFields]
  rw [validateField_append_only f accB, hf]
  simp only [Option.map_some', Option.some_bind]
  rw [validateFields_append_only rest (accB ++ added), h2]
  simp

/-- C13: for a field that carries a `validate` tag and is not exported,
whatever the text of the tag and the type and value of the field, `Validate`
records exactly the one violation `ErrValidateForUnexportedFields`: that is
all it returns for a struct with this field alone, and for a struct with
fields before and after it the violations are those of the fields before, this
one, then those of the fields after, which are still inspected. The tag is not
parsed: the turn of the loop for the field adds this violation for any tag. -/
theorem C13_unexported_tagged_field (f : StructField) (s : GoString) (htag : f.tag = some s)
    (hexp : f.exported = false) :
    (∀ prior : ValidationErrors,
        Validate (some ⟨.Struct, [f]⟩) prior =
          some (some [⟨.ErrValidateForUnexportedFields⟩], [⟨.ErrValidateForUnexportedFields⟩])) ∧
      (∀ (before rest : List StructField) (prior : ValidationErrors)
          (resB resR : Option ValidationErrors) (accB accR : ValidationErrors),
        Validate (some ⟨.Struct, before⟩) prior = some (resB, accB) →
        Validate (some ⟨.Struct, rest⟩) prior = some (resR, accR) →
        Validate (some ⟨.Struct, before ++ f :: rest⟩) prior =
          some (some (accB ++ [⟨.ErrValidateForUnexportedFields⟩] ++ accR),
            accB ++ [⟨.ErrValidateForUnexportedFields⟩] ++ accR)) ∧
      (∀ errs : ValidationErrors,
        validateField f errs = some (errs ++ [⟨.ErrValidateForUnexportedFields⟩])) ∧
      (∀ (before : List StructField) (rest : List StructField) (errs : ValidationErrors),
        validateFields (before ++ f :: rest) errs =
          (validateFields before errs).bind fun acc =>
            validateFields rest (acc ++ [⟨.ErrValidateForUnexportedFields⟩])) := by
  have hf : validateField f [] = some [⟨.ErrValidateForUnexportedFields⟩] := by
    simpa using validateField_unexported f s [] htag hexp
  refine ⟨?_, ?_, fun errs => validateField_unexported f s errs htag hexp, ?_⟩
  · intro prior
    rw [Validate_struct]
    simp [validateFields, hf]
  · intro before rest prior resB resR accB accR hB hR
    rw [Validate_struct_split before rest f prior resB resR accB accR _ hB hR hf]
    simp
  · intro before rest errs
    rw [validateFields_append]
    congr 1
    funext acc
    simp [validateFields, validateField_unexported f s acc htag hexp]

theorem C13_unexported_tagged_field_witness :
    ((⟨lit "age", some (lit "no such rule"), false, .other (lit "float64")⟩ : StructField).tag =
        some (lit "no such rule") ∧
      (⟨lit "age", some (lit "no such rule"), false, .other (lit "float64")⟩ :
        StructField).exported = false ∧
      Validate (some ⟨.Struct, [⟨lit "Size", some (lit "max:3"), true, .int 4⟩]⟩) [] =
        some (some [violation (lit "Size") ": the number is greater than the upper bound"],
          [violation (lit "Size") ": the number is greater than the upper bound"]) ∧
      Validate (some ⟨.Struct, [⟨lit "Word", some (lit "len:2"), true, .string (lit "abc")⟩]⟩) [] =
        some (some [violation (lit "Word") ": incorrect string len"],
          [violation (lit "Word") ": incorrect string len"])) ∧
      Validate (some ⟨.Struct, [⟨lit "Size", some (lit "max:3"), true, .int 4⟩] ++
          ⟨lit "age", some (lit "no such rule"), false, .other (lit "float64")⟩ ::
          [⟨lit "Word", some (lit "len:2"), true, .string (lit "abc")⟩]⟩) [] =
        some (some ([violation (lit "Size") ": the number is greater than the upper bound"] ++
            [⟨.ErrValidateForUnexportedFields⟩] ++
            [violation (lit "Word") ": incorrect string len"]),
          [violation (lit "Size") ": the number is greater than the upper bound"] ++
            [⟨.ErrValidateForUnexportedFields⟩] ++
            [violation (lit "Word") ": incorrect string len"]) :=
  ⟨⟨rfl, rfl, by decide, by decide⟩,
    (C13_unexported_tagged_field ⟨lit "age", some (lit "no such rule"), false,
      .other (lit "float64")⟩ (lit "no such rule") rfl rfl).2.1
      [⟨lit "Size", some (lit "max:3"), true, .int 4⟩]
      [⟨lit "Word", some (lit "len:2"), true, .string (lit "abc")⟩] []
      (some [violation (lit "Size") ": the number is greater than the upper bound"])
      (some [violation (lit "Word") ": incorrect string len"])
      [violation (lit "Size") ": the number is greater than the upper bound"]
      [violation (lit "Word") ": incorrect string len"] (by decide) (by decide)⟩

/-- C14: for an exported field of type `[]int` or `[]string` whose tag parses,
`Validate` evaluates every element, in the order of the slice and without
stopping early. In the violations it records for the struct, between those of
the fields before and those of the fields after, stand the violations of this
field: what each element adds on its own, in that order; an element adds
nothing or one violation, so their number is the number of elements that fail
the rule, and none for an empty slice. -/
theorem C14_slice_elements_all_checked (f : StructField) (s : GoString) (cnfg : ValidateParams)
    (errs : ValidationErrors) (htag : f.tag = some s) (hexp : f.exported = true) :
    (∀ xs : List Int, f.value = .sliceInt xs →
        ParseValidateTags s sliceIntPattern = some (cnfg, none) →
        (∀ (before rest : List StructField) (prior : ValidationErrors)
            (resB resR : Option ValidationErrors) (accB accR : ValidationErrors),
          Validate (some ⟨.Struct, before⟩) prior = some (resB, accB) →
          Validate (some ⟨.Struct, rest⟩) prior = some (resR, accR) →
          Validate (some ⟨.Struct, before ++ f :: rest⟩) prior =
            some (if (accB ++ xs.flatMap (fun item => ParseInt cnfg item f.Name []) ++
                  accR).length = 0 then none
                else some (accB ++ xs.flatMap (fun item => ParseInt cnfg item f.Name []) ++ accR),
              accB ++ xs.flatMap (fun item => ParseInt cnfg item f.Name []) ++ accR)) ∧
          validateField f errs =
            some (errs ++ xs.flatMap (fun item => ParseInt cnfg item f.Name [])) ∧
          (∀ item, (ParseInt cnfg item f.Name []).length ≤ 1) ∧
          (xs.flatMap (fun item => ParseInt cnfg item f.Name [])).length =
            xs.countP (fun item => !(ParseInt cnfg item f.Name []).isEmpty)) ∧
      (∀ xs : List GoString, f.value = .sliceString xs →
        ParseValidateTags s sliceStringPattern = some (cnfg, none) →
        (∀ (before rest : List StructField) (prior : ValidationErrors)
            (resB resR : Option ValidationErrors) (accB accR : ValidationErrors),
          Validate (some ⟨.Struct, before⟩) prior = some (resB, accB) →
          Validate (some ⟨.Struct, rest⟩) prior = some (resR, accR) →
          Validate (some ⟨.Struct, before ++ f :: rest⟩) prior =
            some (if (accB ++ xs.flatMap (fun item => ParseString cnfg item f.Name []) ++
                  accR).length = 0 then none
                else
                  some (accB ++ xs.flatMap (fun item => ParseString cnfg item f.Name []) ++ accR),
              accB ++ xs.flatMap (fun item => ParseString cnfg item f.Name []) ++ accR)) ∧
          validateField f errs =
            some (errs ++ xs.flatMap (fun item => ParseString cnfg item f.Name [])) ∧
          (∀ item, (ParseString cnfg item f.Name []).length ≤ 1) ∧
          (xs.flatMap (fun item => ParseString cnfg item f.Name [])).length =
            xs.countP (fun item => !(ParseString cnfg item f.Name []).isEmpty)) := by
  constructor
  · intro xs hval hparse
    refine ⟨?_, validateField_sliceInt f s cnfg xs errs htag hexp hval hparse,
      fun item => ParseInt_length_le cnfg item f.Name,
      length_flatMap_le_one _ (fun item => ParseInt_length_le cnfg item f.Name) xs⟩
    intro before rest prior resB resR accB accR hB hR
    exact Validate_struct_split before rest f prior resB resR accB accR _ hB hR
      (by simpa using validateField_sliceInt f s cnfg xs [] htag hexp hval hparse)
  · intro xs hval hparse
    refine ⟨?_, validateField_sliceString f s cnfg xs errs htag hexp hval hparse,
      fun item => ParseString_length_le cnfg item f.Name,
      length_flatMap_le_one _ (fun item => ParseString_length_le cnfg item f.Name) xs⟩
    intro before rest prior resB resR accB accR hB hR
    exact Validate_struct_split before rest f prior resB resR accB accR _ hB hR
      (by simpa using validateField_sliceString f s cnfg xs [] htag hexp hval hparse)

theorem C14_slice_elements_all_checked_witness :
    ((⟨lit "Nums", some (lit "range:1,10"), true, .sliceInt [0, 5, 11]⟩ : StructField).tag =
        some (lit "range:1,10") ∧
      (⟨lit "Nums", some (lit "range:1,10"), true, .sliceInt [0, 5, 11]⟩ : StructField).exported =
        true ∧
      ParseValidateTags (lit "range:1,10") sliceIntPattern =
        some ({ tp := rangePref, text := [], min := 1, max := 10, len := 0 }, none) ∧
      Validate (some ⟨.Struct, [⟨lit "Size", some (lit "max:3"), true, .int 4⟩]⟩) [] =
        some (some [violation (lit "Size") ": the number is greater than the upper bound"],
          [violation (lit "Size") ": the number is greater than the upper bound"]) ∧
      Validate (some ⟨.Struct, []⟩) [] = some (none, [])) ∧
      Validate (some ⟨.Struct, [⟨lit "Size", some (lit "max:3"), true, .int 4⟩] ++
          ⟨lit "Nums", some (lit "range:1,10"), true, .sliceInt [0, 5, 11]⟩ :: []⟩) [] =
        some (some [violation (lit "Size") ": the number is greater than the upper bound",
            violation (lit "Nums") ": the number is not in range",
            violation (lit "Nums") ": the number is not in range"],
          [violation (lit "Size") ": the number is greater than the upper bound",
            violation (lit "Nums") ": the number is not in range",
            violation (lit "Nums") ": the number is not in range"]) :=
  ⟨⟨rfl, rfl, by decide, by decide, by decide⟩,
    (((C14_slice_elements_all_checked ⟨lit "Nums", some (lit "range:1,10"), true,
      .sliceInt [0, 5, 11]⟩ (lit "range:1,10")
      { tp := rangePref, text := [], min := 1, max := 10, len := 0 } [] rfl rfl).1 [0, 5, 11] rfl
      (by decide)).1 [⟨lit "Size", some (lit "max:3"), true, .int 4⟩] [] []
      (some [violation (lit "Size") ": the number is greater than the upper bound"]) none
      [violation (lit "Size") ": the number is greater than the upper bound"] [] (by decide)
      (by decide)).trans (by decide)⟩

/-! ## The rendering -/

theorem lit_newline : lit "\n" = [10] := by decide

theorem Error_loop_acc (sprintf : GoString → GoString) (v : ValidationErrors) (acc : GoString) :
    v.foldl (fun message e => message ++ (e.Err.Error sprintf ++ lit "\n")) acc =
      acc ++ v.foldl (fun message e => message ++ (e.Err.Error sprintf ++ lit "\n")) [] := by
  induction v generalizing acc with
  | nil => simp
  | cons e es ih =>
    simp only [List.foldl_cons, List.nil_append]
    rw [ih (acc ++ _), ih (e.Err.Error sprintf ++ lit "\n")]
    simp

theorem Error_loop_Join (sprintf : GoString → GoString) (v : ValidationErrors) (hv : v ≠ []) :
    v.foldl (fun message e => message ++ (e.Err.Error sprintf ++ lit "\n")) [] =
      strings.Join (v.map fun e => e.Err.Error sprintf) (lit "\n") ++ lit "\n" := by
  induction v with
  | nil => exact absurd rfl hv
  | cons e es ih =>
    cases es with
    | nil => simp [strings.Join]
    | cons e2 es =>
      have h := ih (by simp)
      simp only [List.foldl_cons, List.nil_append] at h ⊢
      rw [Error_loop_acc] at h ⊢
      simp only [List.map_cons, strings.Join, List.append_assoc] at h ⊢
      rw [h]

/-- C15: for every list of violations, `Error()` is the messages of the
entries, in order, joined by a newline: nothing after the last message, and
the empty string for the empty list. -/
theorem C15_Error_is_newline_join (sprintf : GoString → GoString) (v : ValidationErrors) :
    ValidationErrors.Error sprintf v =
        strings.Join (v.map fun e => e.Err.Error sprintf) (lit "\n") ∧
      ValidationErrors.Error sprintf [] = [] := by
  refine ⟨?_, by simp [ValidationErrors.Error]⟩
  by_cases hv : v = []
  · subst hv
    simp [ValidationErrors.Error, strings.Join]
  · simp only [ValidationErrors.Error]
    rw [Error_loop_Join sprintf v hv, lit_newline]
    simp

/-! ## Success and isolation of `Validate` -/

/-- C16: for every struct none of whose fields carries a `validate` tag,
`Validate` returns `nil` and leaves the accumulator empty, whatever the types,
the visibility and the values of the fields, and whatever the accumulator held
before. -/
theorem C16_untagged_struct_succeeds (r : Reflected) (before : ValidationErrors)
    (hkind : r.kind = reflect.Kind.Struct) (htags : ∀ f ∈ r.fields, f.tag = none) :
    Validate (some r) before = some (none, []) := by
  simp [Validate, hkind, validateFields_untagged r.fields [] htags]

theorem C16_untagged_struct_succeeds_witness :
    ((⟨.Struct, [⟨lit "Age", none, true, .int (-3)⟩, ⟨lit "name", none, false,
        .string (lit "x")⟩]⟩ : Reflected).kind = reflect.Kind.Struct ∧
      ∀ f ∈ (⟨.Struct, [⟨lit "Age", none, true, .int (-3)⟩, ⟨lit "name", none, false,
        .string (lit "x")⟩]⟩ : Reflected).fields, f.tag = none) ∧
      Validate (some ⟨.Struct, [⟨lit "Age", none, true, .int (-3)⟩, ⟨lit "name", none, false,
        .string (lit "x")⟩]⟩) [⟨.ErrNotStruct⟩] = some (none, []) :=
  ⟨⟨rfl, by decide⟩,
    C16_untagged_struct_succeeds _ [⟨.ErrNotStruct⟩] rfl (by decide)⟩

/-- C18: the result of `Validate` depends on its argument only. Whatever the
accumulator holds before the call, left there by an earlier `Validate` or
by direct calls of `ParseInt` and `ParseString`, the call returns the same
error and leaves the same accumulator; so a second call on the same value,
started from what the first one left, repeats the result of the first. -/
theorem C18_result_independent_of_accumulator (v : Option Reflected) :
    (∀ e1 e2 : ValidationErrors, Validate v e1 = Validate v e2) ∧
      (∀ (e : ValidationErrors) (cnfg : ValidateParams) (num : Int) (s fieldName : GoString),
        Validate v (ParseInt cnfg num fieldName e) = Validate v e ∧
        Validate v (ParseString cnfg s fieldName e) = Validate v e) ∧
      (∀ (e : ValidationErrors) (res : Option ValidationErrors) (after : ValidationErrors),
        Validate v e = some (res, after) → Validate v after = some (res, after)) := by
  have h : ∀ e1 e2 : ValidationErrors, Validate v e1 = Validate v e2 := by
    intro e1 e2
    cases v <;> rfl
  exact ⟨h, fun e cnfg num s fieldName => ⟨h _ _, h _ _⟩, fun e res after hr => (h after e).trans hr⟩

/-! ## Tokens after the required ones -/

theorem Split_Itoa_more (n : Int) (rest : GoString) :
    strings.Split (strconv.Itoa n ++ lit "," ++ rest) 44 =
      strconv.Itoa n :: strings.Split rest 44 := by
  rw [lit_comma, List.append_assoc, List.singleton_append,
    Split_append_sep _ _ _ (strconv.Itoa_no_comma n)]

theorem Split_Itoa_pair_more (a b : Int) (rest : GoString) :
    strings.Split (strconv.Itoa a ++ lit "," ++ strconv.Itoa b ++ lit "," ++ rest) 44 =
      strconv.Itoa a :: strconv.Itoa b :: strings.Split rest 44 := by
  rw [lit_comma]
  simp only [List.append_assoc, List.singleton_append, List.cons_append, List.nil_append]
  rw [Split_append_sep _ _ _ (strconv.Itoa_no_comma a),
    Split_append_sep _ _ _ (strconv.Itoa_no_comma b)]

/-- C19: tokens after the required ones are ignored. For every supported kind,
all integers `n`, `a`, `b` within the range of `int` and every string `rest`,
an integer or not, the tag `min:n,rest` returns what `min:n` returns, the
descriptor with `min = n`; likewise for `max:`, for `len:` on the kinds
`string` and `[]string`, and for `range:a,b,rest` against `range:a,b`. -/
theorem C19_extra_tokens_ignored (k : GoString) (n a b : Int) (rest : GoString)
    (hk : supportedKind k) (hn : strconv.minInt ≤ n ∧ n ≤ strconv.maxInt)
    (ha : strconv.minInt ≤ a ∧ a ≤ strconv.maxInt)
    (hb : strconv.minInt ≤ b ∧ b ≤ strconv.maxInt) :
    (ParseValidateTags (minPref ++ (strconv.Itoa n ++ lit "," ++ rest)) k =
          ParseValidateTags (minPref ++ strconv.Itoa n) k ∧
        ParseValidateTags (minPref ++ strconv.Itoa n) k =
          some ({ tp := minPref, text := [], min := n, max := INF, len := 0 }, none)) ∧
      (ParseValidateTags (maxPref ++ (strconv.Itoa n ++ lit "," ++ rest)) k =
          ParseValidateTags (maxPref ++ strconv.Itoa n) k ∧
        ParseValidateTags (maxPref ++ strconv.Itoa n) k =
          some ({ tp := maxPref, text := [], min := -INF, max := n, len := 0 }, none)) ∧
      (stringKind k →
        ParseValidateTags (lenPref ++ (strconv.Itoa n ++ lit "," ++ rest)) k =
          ParseValidateTags (lenPref ++ strconv.Itoa n) k ∧
        ParseValidateTags (lenPref ++ strconv.Itoa n) k =
          some ({ tp := lenPref, text := [], min := -INF, max := INF, len := n }, none)) ∧
      (ParseValidateTags
            (rangePref ++ (strconv.Itoa a ++ lit "," ++ strconv.Itoa b ++ lit "," ++ rest)) k =
          ParseValidateTags (rangePref ++ (strconv.Itoa a ++ lit "," ++ strconv.Itoa b)) k ∧
        ParseValidateTags (rangePref ++ (strconv.Itoa a ++ lit "," ++ strconv.Itoa b)) k =
          some ({ tp := rangePref, text := [], min := a, max := b, len := 0 }, none)) := by
  have hAn := strconv.Atoi_Itoa n hn.1 hn.2
  have hAa := strconv.Atoi_Itoa a ha.1 ha.2
  have hAb := strconv.Atoi_Itoa b hb.1 hb.2
  refine ⟨?_, ?_, ?_, ?_⟩
  · rw [PVT_min k _ _ _ n hk (Split_Itoa_more n rest) (strconv.Itoa_ne_nil n) hAn,
      PVT_min k _ _ _ n hk (Split_Itoa n) (strconv.Itoa_ne_nil n) hAn]
    exact ⟨rfl, rfl⟩
  · rw [PVT_max k _ _ _ n hk (Split_Itoa_more n rest) (strconv.Itoa_ne_nil n) hAn,
      PVT_max k _ _ _ n hk (Split_Itoa n) (strconv.Itoa_ne_nil n) hAn]
    exact ⟨rfl, rfl⟩
  · intro hs
    rw [PVT_len k _ _ _ n hs (Split_Itoa_more n rest) (strconv.Itoa_ne_nil n) hAn,
      PVT_len k _ _ _ n hs (Split_Itoa n) (strconv.Itoa_ne_nil n) hAn]
    exact ⟨rfl, rfl⟩
  · rw [PVT_range k _ _ _ _ a b hk (Split_Itoa_pair_more a b rest) (strconv.Itoa_ne_nil a)
        hAa hAb,
      PVT_range k _ _ _ _ a b hk (Split_Itoa_pair a b) (strconv.Itoa_ne_nil a) hAa hAb]
    exact ⟨rfl, rfl⟩

theorem C19_extra_tokens_ignored_witness :
    (supportedKind intPattern ∧ (strconv.minInt ≤ 5 ∧ 5 ≤ strconv.maxInt) ∧
      (strconv.minInt ≤ 1 ∧ 1 ≤ strconv.maxInt) ∧ (strconv.minInt ≤ 10 ∧ 10 ≤ strconv.maxInt)) ∧
      ParseValidateTags (minPref ++ (strconv.Itoa 5 ++ lit "," ++ lit "abc,,7")) intPattern =
        ParseValidateTags (minPref ++ strconv.Itoa 5) intPattern ∧
      ParseValidateTags
          (rangePref ++ (strconv.Itoa 1 ++ lit "," ++ strconv.Itoa 10 ++ lit "," ++ lit "abc,,7"))
          intPattern =
        ParseValidateTags (rangePref ++ (strconv.Itoa 1 ++ lit "," ++ strconv.Itoa 10))
          intPattern :=
  ⟨⟨Or.inl rfl, by decide, by decide, by decide⟩,
    (C19_extra_tokens_ignored intPattern 5 1 10 (lit "abc,,7") (Or.inl rfl) (by decide)
      (by decide) (by decide)).1.1,
    (C19_extra_tokens_ignored intPattern 5 1 10 (lit "abc,,7") (Or.inl rfl) (by decide)
      (by decide) (by decide)).2.2.2.1⟩

/-! ## The parser never panics -/

theorem selectPref_cases (s : GoString) :
    selectPref s = [] ∨
      (selectPref s ∈ [lenPref, inPref, minPref, maxPref, rangePref] ∧
        ∃ r, s = selectPref s ++ r) := by
  unfold selectPref
  cases h : [lenPref, inPref, minPref, maxPref, rangePref].find?
      (fun p => strings.HasPrefix s p) with
  | none => exact Or.inl rfl
  | some p =>
    right
    refine ⟨List.mem_of_find?_eq_some h, ?_⟩
    have hp := List.find?_some h
    obtain ⟨r, hr⟩ := List.isPrefixOf_iff_prefix.mp hp
    exact ⟨r, hr.symm⟩

theorem PVT_unsupported (s k : GoString) (hk : ¬ supportedKind k) :
    ParseValidateTags s k = some (ValidateParams.zero, some .ErrInvalidValidatorSyntax) := by
  have h : k ≠ intPattern ∧ k ≠ stringPattern ∧ k ≠ sliceIntPattern ∧ k ≠ sliceStringPattern := by
    simp only [supportedKind, not_or] at hk
    exact hk
  simp [ParseValidateTags, h]

theorem PVT_len_on_int_kind (r k : GoString) (hs : ¬ stringKind k) :
    ParseValidateTags (lenPref ++ r) k =
      some (ValidateParams.zero, some .ErrInvalidValidatorSyntax) := by
  have h : k ≠ stringPattern ∧ k ≠ sliceStringPattern := by
    simp only [stringKind, not_or] at hs
    exact hs
  simp [ParseValidateTags, selectPref_len, h]

/-- The parser returns on every input: no access is out of range. -/
theorem PVT_total (s k : GoString) : ∃ res, ParseValidateTags s k = some res := by
  by_cases hk : supportedKind k
  swap
  · exact ⟨_, PVT_unsupported s k hk⟩
  rcases selectPref_cases s with h0 | ⟨hmem, r, hr⟩
  · exact ⟨_, PVT_no_pref s k h0⟩
  generalize hp : selectPref s = p at hmem hr
  subst hr
  rcases hsplit : strings.Split r 44 with _ | ⟨t, more⟩
  · exact absurd hsplit (Split_ne_nil r 44)
  by_cases hne : t = []
  · subst hne
    exact ⟨_, PVT_empty_first k p r more hp hsplit⟩
  simp only [List.mem_cons, List.mem_singleton, List.not_mem_nil, or_false] at hmem
  rcases hA : strconv.Atoi t with ⟨x, _ | ea⟩
  swap
  · rcases hmem with rfl | rfl | rfl | rfl | rfl
    · exact ⟨_, PVT_first_token_bad k _ r t more hp (by decide) hsplit (by rw [hA]; simp)⟩
    · rw [PVT_in k t more r hk hsplit hne]
      split <;> exact ⟨_, rfl⟩
    · exact ⟨_, PVT_first_token_bad k _ r t more hp (by decide) hsplit (by rw [hA]; simp)⟩
    · exact ⟨_, PVT_first_token_bad k _ r t more hp (by decide) hsplit (by rw [hA]; simp)⟩
    · exact ⟨_, PVT_first_token_bad k _ r t more hp (by decide) hsplit (by rw [hA]; simp)⟩
  rcases hmem with rfl | rfl | rfl | rfl | rfl
  · by_cases hs : stringKind k
    · exact ⟨_, PVT_len k t more r x hs hsplit hne hA⟩
    · exact ⟨_, PVT_len_on_int_kind r k hs⟩
  · rw [PVT_in k t more r hk hsplit hne]
    split <;> exact ⟨_, rfl⟩
  · exact ⟨_, PVT_min k t more r x hk hsplit hne hA⟩
  · exact ⟨_, PVT_max k t more r x hk hsplit hne hA⟩
  · cases more with
    | nil => exact ⟨_, PVT_range_single k r t hsplit⟩
    | cons u more =>
      rcases hB : strconv.Atoi u with ⟨y, _ | eb⟩
      · exact ⟨_, PVT_range k t u more r x y hk hsplit hne hA hB⟩
      · exact ⟨_, PVT_range_second_bad k r t u more hsplit (by rw [hB]; simp)⟩

/-- C20: `ParseValidateTags` returns on every tag and every kind, with a
descriptor and a `nil` error or else with `ErrInvalidValidatorSyntax`: no
slice or index expression is out of range. The slice `s[len(opt):]` is within
`s`, `values` has an element 0, and a call that gets past `values[1]` to a
descriptor of a `range:` tag had at least two tokens. A kind other than the
four supported ones always gives `ErrInvalidValidatorSyntax`. -/
theorem C20_ParseValidateTags_total (s k : GoString) :
    ((∃ cnfg, ParseValidateTags s k = some (cnfg, none)) ∨
        ParseValidateTags s k = some (ValidateParams.zero, some .ErrInvalidValidatorSyntax)) ∧
      (sliceFrom s (selectPref s).length).isSome = true ∧
      (∀ rest : GoString, (strings.Split rest 44)[0]?.isSome = true) ∧
      (¬ supportedKind k →
        ParseValidateTags s k = some (ValidateParams.zero, some .ErrInvalidValidatorSyntax)) := by
  refine ⟨?_, ?_, ?_, PVT_unsupported s k⟩
  · obtain ⟨⟨cnfg, _ | e⟩, hres⟩ := PVT_total s k
    · exact Or.inl ⟨cnfg, hres⟩
    · obtain ⟨he, hc⟩ := PVT_error_uniform s k cnfg e hres
      subst he hc
      exact Or.inr hres
  · rcases selectPref_cases s with h0 | ⟨-, r, hr⟩
    · simp [sliceFrom, h0]
    · have hle : (selectPref s).length ≤ s.length := by
        conv_rhs => rw [hr]
        simp
      simp [sliceFrom, hle]
  · intro rest
    rcases hsplit : strings.Split rest 44 with _ | ⟨t, more⟩
    · exact absurd hsplit (Split_ne_nil rest 44)
    · simp

end Validator
